import Mathlib

/-!
Verification of the checkpoint-selection, assertion, reuse and
metric-aggregation logic of
`train_models_with_different_fluorescence_data_splits.py`.

Python strings are embedded as `List Char` (named `Str`), Python floats as
`ℚ` (exact rationals; binary-float rounding is idealised away), raised
exceptions as `Except`/`Option` results, and the side-effecting control
flow of `train_model` as an explicit event trace.
-/

/-- Python strings are modelled as lists of characters. -/
abbrev Str := List Char

/-- Conversion from Lean string literals to the `Str` embedding. -/
def strL (s : String) : Str := s.toList

/-- Python's `s.split(sep)` for a one-character separator: splits a string on
every occurrence of the separator, keeping empty segments. -/
def splitOnChar (sep : Char) : List Char → List (List Char)
  | [] => [[]]
  | c :: cs =>
    match splitOnChar sep cs with
    | [] => [[]]
    | h :: t => if c = sep then [] :: h :: t else (c :: h) :: t

/-- Python's `lst[-1]` on the (never empty) result of `split`. -/
def lastSeg (ls : List Str) : Str := ls.getLastD []

/-- Python's `s.startswith(p)`, as `startsWithL p s`: the pattern is the
first argument. -/
def startsWithL : List Char → List Char → Bool
  | [], _ => true
  | _ :: _, [] => false
  | a :: as, b :: bs => a = b && startsWithL as bs

/-- Python's `p in s` substring test. -/
def containsSubL (pat : List Char) : List Char → Bool
  | [] => startsWithL pat []
  | c :: cs => startsWithL pat (c :: cs) || containsSubL pat cs

/-- Substring test specialised to a two-character pattern, used to model
Python's `"-v" in val_metric`. -/
def hasSub2 (a b : Char) : List Char → Bool
  | x :: y :: rest => (x = a && y = b) || hasSub2 a b (y :: rest)
  | _ => false

/-- Decimal digit characters. -/
def digitChar : ℕ → Char
  | 0 => '0' | 1 => '1' | 2 => '2' | 3 => '3' | 4 => '4'
  | 5 => '5' | 6 => '6' | 7 => '7' | 8 => '8' | _ => '9'

/-- Numeric value of a (digit-only) character list, as read left to right. -/
def digitsVal (l : List Char) : ℕ := l.foldl (fun n c => 10 * n + (c.toNat - 48)) 0

/-- Decimal rendering of a natural number (used to model Python's `str`/format
of non-negative integers). -/
def natToStr (n : ℕ) : List Char :=
  if _h : n < 10 then [digitChar n]
  else natToStr (n / 10) ++ [digitChar (n % 10)]
termination_by n
decreasing_by exact Nat.div_lt_self (by omega) (by omega)

/-- Zero-pad a digit string on the left up to width `k` (Python's `02d` style
padding). -/
def padZeros (k : ℕ) (s : List Char) : List Char :=
  List.replicate (k - s.length) '0' ++ s

/-- Exactly five decimal digits of `r` (assuming `r < 100000`), the fractional
part of a `.5f` rendering. -/
def frac5 (r : ℕ) : List Char :=
  [digitChar (r / 10000 % 10), digitChar (r / 1000 % 10), digitChar (r / 100 % 10),
   digitChar (r / 10 % 10), digitChar (r % 10)]

/-- Python's `float(s)` on the decimal fragment of its grammar
(optional minus sign, integer digits, optional fractional digits). The result
is the exactly represented rational value; binary rounding is idealised away.
Inputs outside this fragment give `none`, modelling a raised `ValueError`. -/
def parseUnsigned (s : List Char) : Option ℚ :=
  match splitOnChar '.' s with
  | [ip] =>
    if !ip.isEmpty && ip.all Char.isDigit then some (digitsVal ip) else none
  | [ip, fp] =>
    if (!ip.isEmpty || !fp.isEmpty) && ip.all Char.isDigit && fp.all Char.isDigit then
      some ((digitsVal ip : ℚ) + (digitsVal fp : ℚ) / 10 ^ fp.length)
    else none
  | _ => none

/-- Python's `float(s)` including a possible leading minus sign. -/
def parseFloat? (s : List Char) : Option ℚ :=
  match s with
  | [] => none
  | c :: rest => if c = '-' then (parseUnsigned rest).map (fun x => -x) else parseUnsigned s

/-- The checkpoint-value parser of the best-existing-model loop
(`train_models_with_different_fluorescence_data_splits.py` lines 624-629):
`val_metric = path.split("=")[-1][:-len(".ckpt")]`, then if `"-v" in
val_metric` strip a trailing `-v1` before `float(...)`. -/
def parseCkptVal (path : Str) : Option ℚ :=
  let s := lastSeg (splitOnChar '=' path)
  let s := s.take (s.length - 5)
  if hasSub2 '-' 'v' s then parseFloat? (s.take (s.length - 3)) else parseFloat? s

/-- The checkpoint-value parser of the best-pretrained-model loop
(lines 136-141); textually identical logic to `parseCkptVal`. -/
def parsePretrainCkptVal (path : Str) : Option ℚ :=
  let s := lastSeg (splitOnChar '=' path)
  let s := s.take (s.length - 5)
  if hasSub2 '-' 'v' s then parseFloat? (s.take (s.length - 3)) else parseFloat? s

/-- Update condition of the selection loops: `val_metric < best_metric` when
minimising, `val_metric > best_metric` when maximising.  `none` models the
initial `np.inf` / `-np.inf`, which every finite parsed value beats. -/
def beats (minimize : Bool) (v : ℚ) (bm : Option ℚ) : Bool :=
  match bm with
  | none => true
  | some b => if minimize then decide (v < b) else decide (b < v)

/-- Loop body of the best-existing-model search (lines 624-638), threading
`best_model_path`/`best_metric`.  A file whose embedded value fails to parse
makes `float` raise, modelled as `none`. -/
def findBestExistingModelAux (minimize : Bool) :
    List Str → Str → Option ℚ → Option (Str × Option ℚ)
  | [], bp, bm => some (bp, bm)
  | p :: rest, bp, bm =>
    match parseCkptVal p with
    | none => none
    | some v =>
      if beats minimize v bm then findBestExistingModelAux minimize rest p (some v)
      else findBestExistingModelAux minimize rest bp bm

/-- The best-existing-model selection loop (lines 616-640): starts from
`best_model_path = ""`, `best_metric = ±inf`, minimising exactly when the
direction flag equals `"min"`. -/
def findBestExistingModel (direction : Str) (allSavedModels : List Str) :
    Option (Str × Option ℚ) :=
  findBestExistingModelAux (decide (direction = strL "min")) allSavedModels [] none

/-- Loop body of the best-pretrained-model search (lines 128-151); textually
identical logic to `findBestExistingModelAux`. -/
def findBestPretrainedModelAux (minimize : Bool) :
    List Str → Str → Option ℚ → Option (Str × Option ℚ)
  | [], bp, bm => some (bp, bm)
  | p :: rest, bp, bm =>
    match parsePretrainCkptVal p with
    | none => none
    | some v =>
      if beats minimize v bm then findBestPretrainedModelAux minimize rest p (some v)
      else findBestPretrainedModelAux minimize rest bp bm

/-- The best-pretrained-model selection loop (lines 128-152), run before
finetuning on the pretrained checkpoint directory. -/
def findBestPretrainedModel (direction : Str) (allSavedModels : List Str) :
    Option (Str × Option ℚ) :=
  findBestPretrainedModelAux (decide (direction = strL "min")) allSavedModels [] none

/-- Rounding a metric value to five decimal places, the value embedded in a
checkpoint filename by the `.5f` format. -/
def round5Q (q : ℚ) : ℚ := (round (q * 100000) : ℤ) / 100000

/-- Fixed-point rendering with five decimals (Python's format `.5f`),
idealised to exact rational rounding. -/
def formatFixed5 (q : ℚ) : List Char :=
  let n : ℤ := round (q * 100000)
  let sgn : List Char := if n < 0 then ['-'] else []
  sgn ++ natToStr (n.natAbs / 100000) ++ '.' :: frac5 (n.natAbs % 100000)

/-- Modelled from the spec: the training framework's checkpoint naming is not
part of this repository.  Per "checkpoint files named with an embedded epoch
and monitored-metric value", the filename pattern built at line 700
(`best`, a two-digit epoch field and a `.5f` metric field) is rendered by the
framework as `best-epoch=NN-<metric name>=<value>.ckpt`. -/
def renderedCkptFilename (epoch : ℕ) (metricName : Str) (value : ℚ) : Str :=
  (strL "best-epoch=" ++ padZeros 2 (natToStr epoch) ++ '-' :: metricName) ++
    '=' :: (formatFixed5 value ++ strL ".ckpt")

/-- A well-formed checkpoint directory entry: some text before the last `=`,
the metric value text, and an optional `-v1` version suffix. -/
structure CkptEntry where
  pfx : Str
  valText : Str
  hasV1 : Bool
deriving DecidableEq

/-- The filename of a checkpoint entry: `<pfx>=<value>.ckpt` or
`<pfx>=<value>-v1.ckpt`. -/
def renderCkptName (e : CkptEntry) : Str :=
  e.pfx ++ '=' :: (e.valText ++ (if e.hasV1 then strL "-v1.ckpt" else strL ".ckpt"))

/-! ### Basic lemmas about the string utilities -/

theorem splitOnChar_ne_nil (sep : Char) (l : List Char) : splitOnChar sep l ≠ [] := by
  cases l with
  | nil => simp [splitOnChar]
  | cons c cs =>
    cases hq : splitOnChar sep cs with
    | nil => simp [splitOnChar, hq]
    | cons h t =>
      simp only [splitOnChar, hq]
      split <;> simp

theorem splitOnChar_nosep (sep : Char) (l : List Char) (h : ∀ c ∈ l, c ≠ sep) :
    splitOnChar sep l = [l] := by
  induction l with
  | nil => rfl
  | cons c cs ih =>
    have hc : c ≠ sep := h c (by simp)
    have ih' : splitOnChar sep cs = [cs] := ih (fun d hd => h d (by simp [hd]))
    simp [splitOnChar, ih', hc]

theorem splitOnChar_length_two (sep : Char) (l : List Char) (h : sep ∈ l) :
    2 ≤ (splitOnChar sep l).length := by
  induction l with
  | nil => cases h
  | cons c cs ih =>
    cases hq : splitOnChar sep cs with
    | nil => exact absurd hq (splitOnChar_ne_nil sep cs)
    | cons h1 t1 =>
      simp only [splitOnChar, hq]
      rcases List.mem_cons.mp h with hc | hcs
      · subst hc; simp
      · have h2 := ih hcs
        rw [hq] at h2
        simp only [List.length_cons] at h2
        split
        · simp
        · simp only [List.length_cons]; omega

theorem lastSeg_split (sep : Char) (a b : Str) (hb : ∀ c ∈ b, c ≠ sep) :
    lastSeg (splitOnChar sep (a ++ sep :: b)) = b := by
  induction a with
  | nil =>
    rw [List.nil_append]
    simp only [splitOnChar, splitOnChar_nosep sep b hb]
    simp [lastSeg]
  | cons x a' ih =>
    have hne := splitOnChar_ne_nil sep (a' ++ sep :: b)
    cases hq : splitOnChar sep (a' ++ sep :: b) with
    | nil => exact absurd hq hne
    | cons h1 t1 =>
      rw [hq] at ih
      rw [List.cons_append]
      simp only [splitOnChar, hq]
      by_cases hx : x = sep
      · simpa [hx, lastSeg] using ih
      · simp only [hx, if_false, lastSeg] at ih ⊢
        cases t1 with
        | nil =>
          have h2 := splitOnChar_length_two sep (a' ++ sep :: b) (by simp)
          rw [hq] at h2; simp at h2
        | cons y t' =>
          simpa [List.getLastD_cons] using ih

theorem splitOnChar_sep_append (sep : Char) (u w : List Char)
    (hu : ∀ c ∈ u, c ≠ sep) (hw : ∀ c ∈ w, c ≠ sep) :
    splitOnChar sep (u ++ sep :: w) = [u, w] := by
  induction u with
  | nil =>
    rw [List.nil_append]
    simp [splitOnChar, splitOnChar_nosep sep w hw]
  | cons x u' ih =>
    have hx : x ≠ sep := hu x (by simp)
    have ih' := ih (fun d hd => hu d (by simp [hd]))
    rw [List.cons_append]
    simp [splitOnChar, ih', hx]

theorem mem_of_splitOnChar (sep : Char) (l : List Char) (c : Char) (h : c ∈ l) :
    c = sep ∨ ∃ p ∈ splitOnChar sep l, c ∈ p := by
  induction l with
  | nil => cases h
  | cons x xs ih =>
    cases hq : splitOnChar sep xs with
    | nil => exact absurd hq (splitOnChar_ne_nil sep xs)
    | cons h1 t1 =>
      simp only [splitOnChar, hq]
      rcases List.mem_cons.mp h with rfl | hxs
      · by_cases hx : c = sep
        · exact Or.inl hx
        · exact Or.inr ⟨c :: h1, by simp [hx], by simp⟩
      · rcases ih hxs with hsep | ⟨p, hp, hcp⟩
        · exact Or.inl hsep
        · rw [hq] at hp
          by_cases hx : x = sep
          · exact Or.inr ⟨p, by simp [hx, List.mem_cons.mp hp], hcp⟩
          · rcases List.mem_cons.mp hp with rfl | hpt
            · exact Or.inr ⟨x :: p, by simp [hx], by simp [hcp]⟩
            · exact Or.inr ⟨p, by simp [hx, hpt], hcp⟩

theorem hasSub2_eq_false (a b : Char) (l : List Char) (h : ∀ c ∈ l, c ≠ b) :
    hasSub2 a b l = false := by
  induction l with
  | nil => rfl
  | cons x xs ih =>
    cases xs with
    | nil => rfl
    | cons y ys =>
      have hy : y ≠ b := h y (by simp)
      have ih' := ih (fun d hd => h d (by simp [List.mem_cons.mp hd]))
      simp [hasSub2, ih', hy]

theorem hasSub2_append (a b : Char) (l r : List Char) :
    hasSub2 a b (l ++ a :: b :: r) = true := by
  induction l with
  | nil => simp [hasSub2]
  | cons x xs ih =>
    cases hxs : xs ++ a :: b :: r with
    | nil => exact absurd hxs (by simp)
    | cons y ys =>
      rw [List.cons_append, hxs]
      rw [hxs] at ih
      simp [hasSub2, ih]

/-! ### Characters appearing in successfully parsed float text -/


theorem parseUnsigned_chars {s : List Char} {v : ℚ} (h : parseUnsigned s = some v) :
    ∀ c ∈ s, c.isDigit = true ∨ c = '.' := by
  intro c hc
  rcases mem_of_splitOnChar '.' s c hc with hdot | ⟨p, hp, hcp⟩
  · exact Or.inr hdot
  · rcases hq : splitOnChar '.' s with _ | ⟨p1, _ | ⟨p2, _ | ⟨p3, t3⟩⟩⟩
    · exact absurd hq (splitOnChar_ne_nil '.' s)
    · rw [hq] at hp
      simp only [List.mem_singleton] at hp
      subst hp
      simp only [parseUnsigned, hq] at h
      by_cases hcond : (!p.isEmpty && p.all Char.isDigit) = true
      · simp only [Bool.and_eq_true, List.all_eq_true] at hcond
        exact Or.inl (hcond.2 c hcp)
      · rw [if_neg hcond] at h; simp at h
    · rw [hq] at hp
      simp only [parseUnsigned, hq] at h
      by_cases hcond : ((!p1.isEmpty || !p2.isEmpty) && p1.all Char.isDigit
          && p2.all Char.isDigit) = true
      · simp only [Bool.and_eq_true, List.all_eq_true] at hcond
        rcases List.mem_cons.mp hp with rfl | hp2
        · exact Or.inl (hcond.1.2 c hcp)
        · simp only [List.mem_singleton] at hp2
          subst hp2
          exact Or.inl (hcond.2 c hcp)
      · rw [if_neg hcond] at h; simp at h
    · simp only [parseUnsigned, hq] at h
      simp at h

theorem parseFloat?_chars {s : List Char} {v : ℚ} (h : parseFloat? s = some v) :
    ∀ c ∈ s, c.isDigit = true ∨ c = '.' ∨ c = '-' := by
  intro c hc
  cases s with
  | nil => cases hc
  | cons c0 rest =>
    simp only [parseFloat?] at h
    by_cases h0 : c0 = '-'
    · rw [if_pos h0] at h
      rcases List.mem_cons.mp hc with rfl | hcr
      · exact Or.inr (Or.inr h0)
      · rcases Option.map_eq_some'.mp h with ⟨w, hw, _⟩
        rcases parseUnsigned_chars hw c hcr with hd | hd
        · exact Or.inl hd
        · exact Or.inr (Or.inl hd)
    · rw [if_neg h0] at h
      rcases parseUnsigned_chars h c hc with hd | hd
      · exact Or.inl hd
      · exact Or.inr (Or.inl hd)

theorem parseFloat?_char_ne {s : List Char} {v : ℚ} (h : parseFloat? s = some v) :
    ∀ c ∈ s, c ≠ '=' ∧ c ≠ 'v' := by
  intro c hc
  rcases parseFloat?_chars h c hc with hd | rfl | rfl
  · constructor
    · intro hce; subst hce; exact absurd hd (by decide)
    · intro hce; subst hce; exact absurd hd (by decide)
  · exact ⟨by decide, by decide⟩
  · exact ⟨by decide, by decide⟩

/-! ### Parsing a rendered checkpoint entry recovers its embedded value -/

theorem strL_ckpt_ne_eq : ∀ c ∈ strL ".ckpt", c ≠ '=' := by decide

theorem strL_v1ckpt_ne_eq : ∀ c ∈ strL "-v1.ckpt", c ≠ '=' := by decide

theorem parseCkptVal_render (e : CkptEntry) {v : ℚ} (hv : parseFloat? e.valText = some v) :
    parseCkptVal (renderCkptName e) = some v := by
  have hval := parseFloat?_char_ne hv
  have hvne : ∀ c ∈ e.valText, c ≠ 'v' := fun c hc => (hval c hc).2
  cases hb : e.hasV1 with
  | false =>
    have hr : renderCkptName e = e.pfx ++ '=' :: (e.valText ++ strL ".ckpt") := by
      simp [renderCkptName, hb]
    have hne : ∀ c ∈ e.valText ++ strL ".ckpt", c ≠ '=' := by
      intro c hc
      rcases List.mem_append.mp hc with hc1 | hc2
      · exact (hval c hc1).1
      · exact strL_ckpt_ne_eq c hc2
    have hlast := lastSeg_split '=' e.pfx (e.valText ++ strL ".ckpt") hne
    rw [hr]
    simp only [parseCkptVal, hlast]
    have hlen : (e.valText ++ strL ".ckpt").length - 5 = e.valText.length := by
      simp [strL]
    rw [hlen, List.take_left]
    rw [hasSub2_eq_false '-' 'v' e.valText hvne]
    simpa using hv
  | true =>
    have hr : renderCkptName e = e.pfx ++ '=' :: (e.valText ++ strL "-v1.ckpt") := by
      simp [renderCkptName, hb]
    have hne : ∀ c ∈ e.valText ++ strL "-v1.ckpt", c ≠ '=' := by
      intro c hc
      rcases List.mem_append.mp hc with hc1 | hc2
      · exact (hval c hc1).1
      · exact strL_v1ckpt_ne_eq c hc2
    have hlast := lastSeg_split '=' e.pfx (e.valText ++ strL "-v1.ckpt") hne
    rw [hr]
    simp only [parseCkptVal, hlast]
    have hsplit : e.valText ++ strL "-v1.ckpt" = (e.valText ++ strL "-v1") ++ strL ".ckpt" := by
      simp [strL]
    have hlen : (e.valText ++ strL "-v1.ckpt").length - 5 = (e.valText ++ strL "-v1").length := by
      simp [strL]
    rw [hlen, hsplit, List.take_left]
    have hsub : hasSub2 '-' 'v' (e.valText ++ strL "-v1") = true := by
      have h3 : e.valText ++ strL "-v1" = e.valText ++ '-' :: 'v' :: '1' :: [] := by rfl
      rw [h3]
      exact hasSub2_append '-' 'v' e.valText ['1']
    rw [hsub]
    simp only [if_true]
    have hlen3 : (e.valText ++ strL "-v1").length - 3 = e.valText.length := by
      simp [strL]
    rw [hlen3, List.take_left, hv]

/-! ### The best-checkpoint selection loop picks an optimal entry -/

/-- Comparison in the direction being optimised: `x` is at least as good as
`y`. -/
def leDir (minimize : Bool) (x y : ℚ) : Prop := if minimize then x ≤ y else y ≤ x

theorem leDir_refl (minimize : Bool) (x : ℚ) : leDir minimize x x := by
  cases minimize <;> simp [leDir]

theorem leDir_trans {minimize : Bool} {x y z : ℚ}
    (h1 : leDir minimize x y) (h2 : leDir minimize y z) : leDir minimize x z := by
  cases minimize
  · simp only [leDir, Bool.false_eq_true, if_false] at *
    exact le_trans h2 h1
  · simp only [leDir, if_true] at *
    exact le_trans h1 h2

theorem leDir_of_beats {minimize : Bool} {v b : ℚ}
    (h : beats minimize v (some b) = true) : leDir minimize v b := by
  cases minimize <;> simp only [beats, if_true, if_false, Bool.false_eq_true,
    decide_eq_true_eq] at h <;> simp [leDir, le_of_lt h]

theorem leDir_of_not_beats {minimize : Bool} {v b : ℚ}
    (h : beats minimize v (some b) = false) : leDir minimize b v := by
  cases minimize <;> simp only [beats, if_true, if_false, Bool.false_eq_true,
    decide_eq_false_iff_not, not_lt] at h <;> simp [leDir, h]

theorem findBestExistingModelAux_spec (minimize : Bool) (paths : List Str) :
    ∀ (bp : Str) (bm : Option ℚ),
      (∀ p ∈ paths, (parseCkptVal p).isSome = true) →
      ∃ bp' bm', findBestExistingModelAux minimize paths bp bm = some (bp', bm') ∧
        ((bp' = bp ∧ bm' = bm) ∨
          (bp' ∈ paths ∧ parseCkptVal bp' = bm' ∧ bm'.isSome = true)) ∧
        (∀ v, bm = some v → ∃ w, bm' = some w ∧ leDir minimize w v) ∧
        (∀ p ∈ paths, ∀ w, parseCkptVal p = some w →
          ∃ u, bm' = some u ∧ leDir minimize u w) := by
  induction paths with
  | nil =>
    intro bp bm _
    exact ⟨bp, bm, rfl, Or.inl ⟨rfl, rfl⟩,
      fun v hv => ⟨v, hv, leDir_refl minimize v⟩,
      fun p hp => absurd hp (List.not_mem_nil p)⟩
  | cons p rest ih =>
    intro bp bm hall
    have hpive : (parseCkptVal p).isSome = true := hall p (by simp)
    rcases Option.isSome_iff_exists.mp hpive with ⟨v, hv⟩
    have hrest : ∀ q ∈ rest, (parseCkptVal q).isSome = true :=
      fun q hq => hall q (by simp [hq])
    by_cases hbeat : beats minimize v bm = true
    · rcases ih p (some v) hrest with ⟨bp', bm', heq, hfrom, hmono, hopt⟩
      have hstep : findBestExistingModelAux minimize (p :: rest) bp bm = some (bp', bm') := by
        simp only [findBestExistingModelAux, hv, hbeat, if_true]
        exact heq
      refine ⟨bp', bm', hstep, ?_, ?_, ?_⟩
      · rcases hfrom with ⟨h1, h2⟩ | ⟨hmem, hparse, hsome⟩
        · exact Or.inr ⟨by simp [h1], by rw [h1, h2]; exact hv, by rw [h2]; rfl⟩
        · exact Or.inr ⟨by simp [hmem], hparse, hsome⟩
      · intro b hb
        subst hb
        rcases hmono v rfl with ⟨w, hw, hcmp⟩
        exact ⟨w, hw, leDir_trans hcmp (leDir_of_beats hbeat)⟩
      · intro q hq w hw
        rcases List.mem_cons.mp hq with rfl | hq'
        · rw [hv] at hw
          injection hw with hw
          subst hw
          exact hmono v rfl
        · exact hopt q hq' w hw
    · rcases bm with _ | b
      · exact absurd rfl hbeat
      · rcases ih bp (some b) hrest with ⟨bp', bm', heq, hfrom, hmono, hopt⟩
        have hbeat' : beats minimize v (some b) = false := by
          rwa [Bool.not_eq_true] at hbeat
        have hstep : findBestExistingModelAux minimize (p :: rest) bp (some b) =
            some (bp', bm') := by
          simp only [findBestExistingModelAux, hv, hbeat']
          simp only [Bool.false_eq_true, if_false]
          exact heq
        refine ⟨bp', bm', hstep, ?_, hmono, ?_⟩
        · rcases hfrom with ⟨h1, h2⟩ | ⟨hmem, hparse, hsome⟩
          · exact Or.inl ⟨h1, h2⟩
          · exact Or.inr ⟨by simp [hmem], hparse, hsome⟩
        · intro q hq w hw
          rcases List.mem_cons.mp hq with rfl | hq'
          · rw [hv] at hw
            injection hw with hw
            subst hw
            rcases hmono b rfl with ⟨u, hu, hcmp⟩
            exact ⟨u, hu, leDir_trans hcmp (leDir_of_not_beats hbeat')⟩
          · exact hopt q hq' w hw

/-- Claim C1: on a non-empty directory listing of checkpoint filenames of the
form `<pfx>=<value>.ckpt` or `<pfx>=<value>-v1.ckpt` (with parseable value
text), the best-checkpoint selection loop returns a filename whose embedded
metric value is minimal when the direction flag is `"min"` and maximal when
it is `"max"`. -/
theorem bestExistingModel_selects_optimal (direction : Str) (entries : List CkptEntry)
    (hne : entries ≠ [])
    (hp : ∀ e ∈ entries, (parseFloat? e.valText).isSome = true) :
    ∃ bp v, findBestExistingModel direction (entries.map renderCkptName) = some (bp, some v) ∧
      bp ∈ entries.map renderCkptName ∧ parseCkptVal bp = some v ∧
      ∀ p ∈ entries.map renderCkptName, ∀ w, parseCkptVal p = some w →
        ((direction = strL "min" → v ≤ w) ∧ (direction = strL "max" → w ≤ v)) := by
  set minimize := decide (direction = strL "min") with hmin
  have hall : ∀ p ∈ entries.map renderCkptName, (parseCkptVal p).isSome = true := by
    intro p hpm
    rcases List.mem_map.mp hpm with ⟨e, he, rfl⟩
    rcases Option.isSome_iff_exists.mp (hp e he) with ⟨v, hv⟩
    rw [parseCkptVal_render e hv]
    rfl
  rcases findBestExistingModelAux_spec minimize (entries.map renderCkptName) [] none hall
    with ⟨bp', bm', heq, hfrom, _, hopt⟩
  rcases List.exists_mem_of_ne_nil entries hne with ⟨e0, he0⟩
  have hp0 : renderCkptName e0 ∈ entries.map renderCkptName := List.mem_map_of_mem _ he0
  rcases Option.isSome_iff_exists.mp (hall _ hp0) with ⟨v0, hv0⟩
  rcases hopt _ hp0 v0 hv0 with ⟨u, hu, _⟩
  have hfrom' : bp' ∈ entries.map renderCkptName ∧ parseCkptVal bp' = bm' ∧
      bm'.isSome = true := by
    rcases hfrom with ⟨_, h2⟩ | hok
    · rw [h2] at hu; cases hu
    · exact hok
  refine ⟨bp', u, ?_, hfrom'.1, ?_, ?_⟩
  · rw [findBestExistingModel, ← hmin, heq, hu]
  · rw [hfrom'.2.1, hu]
  · intro p hpm w hw
    rcases hopt p hpm w hw with ⟨u', hu', hcmp⟩
    rw [hu] at hu'
    injection hu' with hu'
    subst hu'
    constructor
    · intro hdir
      have : minimize = true := by rw [hmin, hdir]; simp
      rw [this] at hcmp
      simpa [leDir] using hcmp
    · intro hdir
      have : minimize = false := by
        rw [hmin, hdir]
        simp [strL]
      rw [this] at hcmp
      simpa [leDir] using hcmp

/-- Entries used to witness the best-checkpoint selection theorem. -/
def c1Entries : List CkptEntry :=
  [⟨strL "best-epoch=00-val_loss", strL "0.51250", false⟩,
   ⟨strL "best-epoch=01-val_loss", strL "0.25000", true⟩]

theorem bestExistingModel_selects_optimal_witness :
    c1Entries ≠ [] ∧ (∀ e ∈ c1Entries, (parseFloat? e.valText).isSome = true) ∧
      (∃ bp v, findBestExistingModel (strL "min") (c1Entries.map renderCkptName) =
            some (bp, some v) ∧
          bp ∈ c1Entries.map renderCkptName ∧ parseCkptVal bp = some v ∧
          ∀ p ∈ c1Entries.map renderCkptName, ∀ w, parseCkptVal p = some w →
            ((strL "min" = strL "min" → v ≤ w) ∧ (strL "min" = strL "max" → w ≤ v))) :=
  ⟨by decide, by decide,
    bestExistingModel_selects_optimal (strL "min") c1Entries (by decide) (by decide)⟩

/-- Auxiliary: the two textually duplicated loop bodies agree from any
starting state. -/
theorem loops_aux_agree (minimize : Bool) (paths : List Str) :
    ∀ bp bm, findBestPretrainedModelAux minimize paths bp bm =
      findBestExistingModelAux minimize paths bp bm := by
  induction paths with
  | nil => intro bp bm; rfl
  | cons p rest ih =>
    intro bp bm
    simp only [findBestPretrainedModelAux, findBestExistingModelAux]
    have hpp : parsePretrainCkptVal p = parseCkptVal p := rfl
    rw [hpp]
    cases parseCkptVal p with
    | none => rfl
    | some v =>
      by_cases hb : beats minimize v bm = true
      · simp only [hb, if_true]
        exact ih p (some v)
      · rw [Bool.not_eq_true] at hb
        simp only [hb, Bool.false_eq_true, if_false]
        exact ih bp bm

/-- Claim C8: the best-pretrained-model selection loop (run before finetuning)
and the best-existing-model selection loop (run when reusing models) compute
the same best filename and best metric value on every identical directory
listing and direction flag. -/
theorem best_model_loops_agree (direction : Str) (paths : List Str) :
    findBestPretrainedModel direction paths = findBestExistingModel direction paths :=
  loops_aux_agree (decide (direction = strL "min")) paths [] none

/-! ### Decimal rendering and reparsing -/

theorem digitChar_isDigit (d : ℕ) : (digitChar d).isDigit = true := by
  rcases d with _|_|_|_|_|_|_|_|_|n <;> rfl

theorem digitChar_toNat {d : ℕ} (h : d < 10) : (digitChar d).toNat = 48 + d := by
  interval_cases d <;> rfl

theorem digitsVal_append_last (l : List Char) (c : Char) :
    digitsVal (l ++ [c]) = 10 * digitsVal l + (c.toNat - 48) := by
  simp [digitsVal, List.foldl_append]

theorem digitsVal_natToStr (n : ℕ) : digitsVal (natToStr n) = n := by
  induction n using Nat.strong_induction_on with
  | _ n ih =>
    rw [natToStr]
    split
    · rename_i h
      simp only [digitsVal, List.foldl_cons, List.foldl_nil]
      rw [digitChar_toNat h]
      omega
    · rename_i h
      rw [digitsVal_append_last]
      rw [ih (n / 10) (Nat.div_lt_self (by omega) (by omega))]
      rw [digitChar_toNat (Nat.mod_lt n (by omega))]
      omega

theorem natToStr_ne_nil (n : ℕ) : natToStr n ≠ [] := by
  rw [natToStr]
  split <;> simp

theorem natToStr_digits (n : ℕ) : ∀ c ∈ natToStr n, c.isDigit = true := by
  induction n using Nat.strong_induction_on with
  | _ n ih =>
    rw [natToStr]
    split
    · intro c hc
      simp only [List.mem_singleton] at hc
      subst hc
      exact digitChar_isDigit _
    · intro c hc
      rcases List.mem_append.mp hc with h1 | h2
      · exact ih (n / 10) (Nat.div_lt_self (by omega) (by omega)) c h1
      · simp only [List.mem_singleton] at h2
        subst h2
        exact digitChar_isDigit _

theorem frac5_digits (r : ℕ) : ∀ c ∈ frac5 r, c.isDigit = true := by
  intro c hc
  simp only [frac5, List.mem_cons, List.not_mem_nil, or_false] at hc
  rcases hc with rfl|rfl|rfl|rfl|rfl <;> exact digitChar_isDigit _

theorem digitsVal_frac5 {r : ℕ} (h : r < 100000) : digitsVal (frac5 r) = r := by
  simp only [frac5, digitsVal, List.foldl_cons, List.foldl_nil]
  rw [digitChar_toNat (Nat.mod_lt _ (by omega)), digitChar_toNat (Nat.mod_lt _ (by omega)),
    digitChar_toNat (Nat.mod_lt _ (by omega)), digitChar_toNat (Nat.mod_lt _ (by omega)),
    digitChar_toNat (Nat.mod_lt _ (by omega))]
  omega

theorem isDigit_ne_dot {c : Char} (h : c.isDigit = true) : c ≠ '.' := by
  intro hc; subst hc; exact absurd h (by decide)

theorem parseUnsigned_digit_strings (ip fp : List Char) (hip : ∀ c ∈ ip, c.isDigit = true)
    (hfp : ∀ c ∈ fp, c.isDigit = true) (hne : ip ≠ []) :
    parseUnsigned (ip ++ '.' :: fp) =
      some ((digitsVal ip : ℚ) + (digitsVal fp : ℚ) / 10 ^ fp.length) := by
  have hip' : ∀ c ∈ ip, c ≠ '.' := fun c hc => isDigit_ne_dot (hip c hc)
  have hfp' : ∀ c ∈ fp, c ≠ '.' := fun c hc => isDigit_ne_dot (hfp c hc)
  have hempty : ip.isEmpty = false := by
    cases ip with
    | nil => exact absurd rfl hne
    | cons a l => rfl
  simp only [parseUnsigned, splitOnChar_sep_append '.' ip fp hip' hfp']
  rw [if_pos]
  simp only [hempty, Bool.not_false, Bool.true_or, Bool.true_and, Bool.and_eq_true,
    List.all_eq_true]
  exact ⟨hip, hfp⟩

theorem nat_divmod_q (m : ℕ) :
    ((m / 100000 : ℕ) : ℚ) + ((m % 100000 : ℕ) : ℚ) / 100000 = (m : ℚ) / 100000 := by
  have h100 : (100000 : ℚ) ≠ 0 := by norm_num
  field_simp
  exact_mod_cast (by omega : m / 100000 * 100000 + m % 100000 = m)

theorem parseFloat?_formatFixed5 (q : ℚ) : parseFloat? (formatFixed5 q) = some (round5Q q) := by
  have hbody : ∀ m : ℕ, parseUnsigned (natToStr (m / 100000) ++ '.' :: frac5 (m % 100000)) =
      some ((m : ℚ) / 100000) := by
    intro m
    rw [parseUnsigned_digit_strings _ _ (natToStr_digits _) (frac5_digits _) (natToStr_ne_nil _)]
    rw [digitsVal_natToStr, digitsVal_frac5 (Nat.mod_lt _ (by omega))]
    have h5 : (frac5 (m % 100000)).length = 5 := rfl
    rw [h5]
    congr 1
    rw [(by norm_num : (10 : ℚ) ^ 5 = 100000)]
    exact nat_divmod_q m
  by_cases hneg : round (q * 100000) < 0
  · have hform : formatFixed5 q = '-' :: (natToStr ((round (q * 100000)).natAbs / 100000) ++
        '.' :: frac5 ((round (q * 100000)).natAbs % 100000)) := by
      simp [formatFixed5, hneg]
    rw [hform]
    simp only [parseFloat?, if_pos]
    rw [hbody]
    have hm : (((round (q * 100000)).natAbs : ℕ) : ℚ) = -((round (q * 100000) : ℤ) : ℚ) := by
      rw [Int.cast_natAbs, abs_of_neg hneg]
      push_cast
      ring
    rw [Option.map_some', round5Q, hm]
    congr 1
    ring
  · have hform : formatFixed5 q = natToStr ((round (q * 100000)).natAbs / 100000) ++
        '.' :: frac5 ((round (q * 100000)).natAbs % 100000) := by
      simp [formatFixed5, hneg]
    rcases hcons : natToStr ((round (q * 100000)).natAbs / 100000) with _ | ⟨c0, cs⟩
    · exact absurd hcons (natToStr_ne_nil _)
    · have hc0 : c0.isDigit = true := natToStr_digits _ c0 (by rw [hcons]; simp)
      have hc0' : c0 ≠ '-' := by intro hcm; subst hcm; exact absurd hc0 (by decide)
      have hform' : formatFixed5 q =
          c0 :: (cs ++ '.' :: frac5 ((round (q * 100000)).natAbs % 100000)) := by
        rw [hform, hcons]; rfl
      rw [hform']
      simp only [parseFloat?]
      rw [if_neg hc0']
      have hback : c0 :: (cs ++ '.' :: frac5 ((round (q * 100000)).natAbs % 100000)) =
          natToStr ((round (q * 100000)).natAbs / 100000) ++
            '.' :: frac5 ((round (q * 100000)).natAbs % 100000) := by
        rw [hcons]; rfl
      rw [hback, hbody]
      have hm : (((round (q * 100000)).natAbs : ℕ) : ℚ) = ((round (q * 100000) : ℤ) : ℚ) := by
        rw [Int.cast_natAbs, abs_of_nonneg (not_lt.mp hneg)]
      rw [round5Q, hm]

theorem formatFixed5_char_ne (q : ℚ) : ∀ c ∈ formatFixed5 q, c ≠ '=' ∧ c ≠ 'v' :=
  parseFloat?_char_ne (parseFloat?_formatFixed5 q)

/-- Claim C7: round trip of checkpoint naming and parsing.  For every epoch
and monitored-metric value, the framework-rendered filename of the
`best`/epoch/`.5f`-metric checkpoint pattern, parsed by the selection loop
(split on `=`, take the last segment, strip `.ckpt`), yields the
monitored-metric value rounded to five decimal places. -/
theorem ckpt_roundtrip (epoch : ℕ) (metricName : Str) (q : ℚ) :
    parseCkptVal (renderedCkptFilename epoch metricName q) = some (round5Q q) := by
  have hval := formatFixed5_char_ne q
  have hne : ∀ c ∈ formatFixed5 q ++ strL ".ckpt", c ≠ '=' := by
    intro c hc
    rcases List.mem_append.mp hc with h1 | h2
    · exact (hval c h1).1
    · exact strL_ckpt_ne_eq c h2
  have hlast := lastSeg_split '='
    (strL "best-epoch=" ++ padZeros 2 (natToStr epoch) ++ '-' :: metricName)
    (formatFixed5 q ++ strL ".ckpt") hne
  simp only [renderedCkptFilename, parseCkptVal, hlast]
  have hlen : (formatFixed5 q ++ strL ".ckpt").length - 5 = (formatFixed5 q).length := by
    simp [strL]
  rw [hlen, List.take_left]
  rw [hasSub2_eq_false '-' 'v' _ (fun c hc => (hval c hc).2)]
  simpa using parseFloat?_formatFixed5 q

/-! ### Control-flow model of `train_model` -/

/-- Python exceptions raised by `train_model`'s precondition checks. -/
inductive PyErr where
  | assertionError (msg : Str)
  | valueError (msg : Str)
deriving DecidableEq

/-- The command-line arguments of the script that the modelled control flow
depends on (argparse defaults: task lists `None`, one random seed, existing
models not reused). -/
structure Args where
  modelling_strategy : Str
  model_name : Str
  joint_tasks : Option Str
  pretrain_tasks : Option Str
  finetune_tasks : Option Str
  single_task : Option Str
  num_random_seeds : ℕ
  use_existing_models : Bool
deriving DecidableEq

/-- Task-list resolution (lines 92-109): `joint` requires `--joint_tasks`;
a strategy starting with `pretrain` requires both `--pretrain_tasks` and
`--finetune_tasks` and picks one of them depending on the phase; a strategy
starting with `single_task` requires `--single_task`; anything else raises
`ValueError("Invalid modelling strategy")`. -/
def setupTasks (a : Args) (finetune : Bool) : Except PyErr (List Str) :=
  if a.modelling_strategy = strL "joint" then
    match a.joint_tasks with
    | none => .error (.assertionError (strL "Must specify tasks to jointly train on"))
    | some jt => .ok (splitOnChar ',' jt)
  else if startsWithL (strL "pretrain") a.modelling_strategy then
    match a.pretrain_tasks with
    | none => .error (.assertionError (strL "Must specify tasks to pretrain on"))
    | some pt =>
      match a.finetune_tasks with
      | none => .error (.assertionError
          (strL "Must specify tasks to finetune or perform linear probing on"))
      | some ft => .ok (if finetune then splitOnChar ',' ft else splitOnChar ',' pt)
  else if startsWithL (strL "single_task") a.modelling_strategy then
    match a.single_task with
    | none => .error (.assertionError (strL "Must specify task to train on"))
    | some st => .ok [st]
  else .error (.valueError (strL "Invalid modelling strategy"))

/-- Allowed tasks of motif-based models (line 113). -/
def motifAllowedTasks : List Str :=
  [strL "FluorescenceData", strL "FluorescenceData_DE", strL "Malinois_MPRA"]

/-- Motif-based model checks (lines 111-113): a model name starting with
`MotifBased` asserts a single task, which must be one of the three allowed
datasets. -/
def motifCheck (modelName : Str) (tasks : List Str) : Except PyErr Unit :=
  if startsWithL (strL "MotifBased") modelName then
    if tasks.length = 1 then
      if tasks.headD [] ∈ motifAllowedTasks then .ok ()
      else .error (.assertionError (strL
        "Motif-based models can only be trained on FluorescenceData, FluorescenceData_DE, or Malinois_MPRA"))
    else .error (.assertionError (strL "Motif-based models can only be trained on a single task"))
  else .ok ()

/-- Number of models trained (lines 179-182): one during a pretraining phase
(`"pretrain" in args.modelling_strategy and not finetune`), otherwise
`--num_random_seeds` many. -/
def numModelsToTrain (a : Args) (finetune : Bool) : ℕ :=
  if containsSubL (strL "pretrain") a.modelling_strategy && !finetune then 1
  else a.num_random_seeds

/-- Decision to reuse an existing model (lines 595-601): nested checks of
`--use_existing_models`, existence of the checkpoint directory, and existence
of the `done.txt` sentinel. -/
def reuseDecision (useExisting dirExists doneExists : Bool) : Bool :=
  if useExisting then
    if dirExists then
      if doneExists then true else false
    else false
  else false

/-- Whether the current run uses the simple-regression fit path (lines
605/660). -/
def isSimpleRegressionRun (strategy : Str) (finetune : Bool) : Bool :=
  (decide (strategy = strL "pretrain+simple_regression") && finetune) ||
    decide (strategy = strL "single_task_simple_regression")

/-- Observable actions of the modelled control flow of `train_model`. -/
inductive Event where
  | loadedPretrained
  | dataloaderCreated (task : Str)
  | loadedExisting (seed : ℕ)
  | simpleRegLoad (seed : ℕ)
  | fit (seed : ℕ)
  | simpleRegFit (seed : ℕ)
  | wroteDone (seed : ℕ)
  | predicted (seed : ℕ)
deriving DecidableEq

/-- Events of one iteration of the per-seed loop (lines 595-729).  Reusing an
existing model loads it (for simple-regression runs, via
`fit_simple_regression(use_existing_models=True)`, which per the source
comment at line 606 loads the cached model) and predicts; otherwise the model
is trained (`trainer.fit`, or the simple-regression fit), the `done.txt`
sentinel is written, and predictions are produced. -/
def seedRunEvents (strategy : Str) (finetune reuse : Bool) (seed : ℕ) : List Event :=
  if reuse then
    if isSimpleRegressionRun strategy finetune then
      [.simpleRegLoad seed, .predicted seed]
    else
      [.loadedExisting seed, .predicted seed]
  else
    if isSimpleRegressionRun strategy finetune then
      [.simpleRegFit seed, .wroteDone seed, .predicted seed]
    else
      [.fit seed, .wroteDone seed, .predicted seed]

/-- The environment a run executes in: for each seed, whether the run's
checkpoint directory exists and whether its `done.txt` sentinel exists. -/
def SeedEnv : Type := ℕ → Bool × Bool

/-- Control-flow trace of one `train_model` call: the task checks run first
(lines 92-113, any failure halts before anything else happens); when
finetuning after pretraining the best pretrained checkpoint is loaded
(lines 116-155); dataloaders are instantiated per task (lines 216-446); then
the per-seed loop trains or reuses a model per seed (lines 486-729).  Returns
the events performed and the exception that halted the run, if any. -/
def trainModelTrace (a : Args) (finetune : Bool) (env : SeedEnv) :
    List Event × Option PyErr :=
  match setupTasks a finetune with
  | .error e => ([], some e)
  | .ok tasks =>
    match motifCheck a.model_name tasks with
    | .error e => ([], some e)
    | .ok _ =>
      let pretrainLoad : List Event :=
        if containsSubL (strL "pretrain") a.modelling_strategy && finetune then
          [.loadedPretrained]
        else []
      let dls := tasks.map Event.dataloaderCreated
      let seeds := (List.range (numModelsToTrain a finetune)).flatMap (fun seed =>
        seedRunEvents a.modelling_strategy finetune
          (reuseDecision a.use_existing_models (env seed).1 (env seed).2) seed)
      (pretrainLoad ++ dls ++ seeds, none)

/-! ### Assertion and error behaviour of the task checks -/

theorem startsWithL_head {a : Char} {as s : List Char} (h : startsWithL (a :: as) s = true) :
    ∃ s', s = a :: s' := by
  cases s with
  | nil => exact absurd h (by simp [startsWithL])
  | cons b bs =>
    simp only [startsWithL, Bool.and_eq_true, decide_eq_true_eq] at h
    exact ⟨bs, by rw [h.1]⟩

/-- Claim C4: when the strategy is `joint` with no `--joint_tasks`, or starts
with `pretrain` with `--pretrain_tasks` or `--finetune_tasks` missing, or
starts with `single_task` with no `--single_task`, `train_model` halts
immediately with an assertion failure: the trace is empty (no dataloader, no
training, no recovery or retry). -/
theorem missing_task_assert_halts (a : Args) (finetune : Bool) (env : SeedEnv)
    (h : (a.modelling_strategy = strL "joint" ∧ a.joint_tasks = none) ∨
         (startsWithL (strL "pretrain") a.modelling_strategy = true ∧
           (a.pretrain_tasks = none ∨ a.finetune_tasks = none)) ∨
         (startsWithL (strL "single_task") a.modelling_strategy = true ∧
           a.single_task = none)) :
    ∃ msg, trainModelTrace a finetune env = ([], some (.assertionError msg)) := by
  have hsetup : ∃ msg, setupTasks a finetune = .error (.assertionError msg) := by
    rcases h with ⟨hj, hjt⟩ | ⟨hp, hpt⟩ | ⟨hs, hst⟩
    · refine ⟨strL "Must specify tasks to jointly train on", ?_⟩
      simp only [setupTasks]
      rw [if_pos hj, hjt]
    · obtain ⟨s', hs'⟩ := startsWithL_head hp
      have hne : ¬ (a.modelling_strategy = strL "joint") := by
        rw [hs']; simp [strL]
      rcases hpt with hpt | hft
      · refine ⟨strL "Must specify tasks to pretrain on", ?_⟩
        simp only [setupTasks]
        rw [if_neg hne, if_pos hp, hpt]
      · cases hptv : a.pretrain_tasks with
        | none =>
          refine ⟨strL "Must specify tasks to pretrain on", ?_⟩
          simp only [setupTasks]
          rw [if_neg hne, if_pos hp, hptv]
        | some pt =>
          refine ⟨strL "Must specify tasks to finetune or perform linear probing on", ?_⟩
          simp only [setupTasks]
          rw [if_neg hne, if_pos hp, hptv, hft]
    · obtain ⟨s', hs'⟩ := startsWithL_head hs
      have hne1 : ¬ (a.modelling_strategy = strL "joint") := by
        rw [hs']; simp [strL]
      have hne2 : ¬ (startsWithL (strL "pretrain") a.modelling_strategy = true) := by
        rw [hs']; simp [strL, startsWithL]
      refine ⟨strL "Must specify task to train on", ?_⟩
      simp only [setupTasks]
      rw [if_neg hne1, if_neg hne2, if_pos hs, hst]
  rcases hsetup with ⟨msg, hmsg⟩
  exact ⟨msg, by simp only [trainModelTrace, hmsg]⟩

/-- Arguments witnessing the missing-task assertion halt. -/
def c4Args : Args :=
  ⟨strL "joint", strL "MTLucifer", none, none, none, none, 1, false⟩

theorem missing_task_assert_halts_witness :
    (c4Args.modelling_strategy = strL "joint" ∧ c4Args.joint_tasks = none) ∧
      ∃ msg, trainModelTrace c4Args false (fun _ => (false, false)) =
        ([], some (.assertionError msg)) :=
  ⟨by decide, missing_task_assert_halts c4Args false (fun _ => (false, false))
    (Or.inl (by decide))⟩

/-- `motifCheck` raises only assertion errors, never a `ValueError`. -/
theorem motifCheck_no_valueError (modelName : Str) (tasks : List Str) (msg : Str) :
    motifCheck modelName tasks ≠ .error (.valueError msg) := by
  simp only [motifCheck]
  split
  · split
    · split
      · simp
      · simp
    · simp
  · simp

/-- The strategy-check clauses of `setupTasks` raise the invalid-strategy
`ValueError` exactly on strategies that are not `joint` and do not start with
`pretrain` or `single_task`. -/
theorem setupTasks_valueError_iff (a : Args) (finetune : Bool) :
    setupTasks a finetune = .error (.valueError (strL "Invalid modelling strategy")) ↔
      (a.modelling_strategy ≠ strL "joint" ∧
        startsWithL (strL "pretrain") a.modelling_strategy = false ∧
        startsWithL (strL "single_task") a.modelling_strategy = false) := by
  constructor
  · intro h
    by_cases h1 : a.modelling_strategy = strL "joint"
    · exfalso
      simp only [setupTasks] at h
      rw [if_pos h1] at h
      cases hj : a.joint_tasks with
      | none => rw [hj] at h; simp at h
      | some jt => rw [hj] at h; simp at h
    · by_cases h2 : startsWithL (strL "pretrain") a.modelling_strategy = true
      · exfalso
        simp only [setupTasks] at h
        rw [if_neg h1, if_pos h2] at h
        cases hp : a.pretrain_tasks with
        | none => rw [hp] at h; simp at h
        | some pt =>
          rw [hp] at h
          cases hf : a.finetune_tasks with
          | none => rw [hf] at h; simp at h
          | some ft => rw [hf] at h; simp at h
      · by_cases h3 : startsWithL (strL "single_task") a.modelling_strategy = true
        · exfalso
          simp only [setupTasks] at h
          rw [if_neg h1, if_neg h2, if_pos h3] at h
          cases hs : a.single_task with
          | none => rw [hs] at h; simp at h
          | some st => rw [hs] at h; simp at h
        · exact ⟨h1, Bool.not_eq_true _ ▸ (Bool.of_not_eq_true h2),
            Bool.of_not_eq_true h3⟩
  · rintro ⟨h1, h2, h3⟩
    simp only [setupTasks]
    rw [if_neg h1, if_neg (by simp [h2]), if_neg (by simp [h3])]

/-- Claim C3 (amended): `train_model` raises the invalid-modelling-strategy
`ValueError` — before instantiating any dataloader or training any model —
exactly when `--modelling_strategy` is not `joint` and does not start with
`pretrain` or `single_task`. -/
theorem invalid_strategy_error_iff (a : Args) (finetune : Bool) (env : SeedEnv) :
    trainModelTrace a finetune env =
        ([], some (.valueError (strL "Invalid modelling strategy"))) ↔
      (a.modelling_strategy ≠ strL "joint" ∧
        startsWithL (strL "pretrain") a.modelling_strategy = false ∧
        startsWithL (strL "single_task") a.modelling_strategy = false) := by
  constructor
  · intro h
    cases hs : setupTasks a finetune with
    | error e =>
      simp only [trainModelTrace, hs] at h
      have he : e = .valueError (strL "Invalid modelling strategy") := by
        simpa using h
      rw [← setupTasks_valueError_iff a finetune, hs, he]
    | ok tasks =>
      exfalso
      cases hm : motifCheck a.model_name tasks with
      | error e =>
        simp only [trainModelTrace, hs, hm] at h
        have he : e = .valueError (strL "Invalid modelling strategy") := by simpa using h
        rw [he] at hm
        exact motifCheck_no_valueError a.model_name tasks _ hm
      | ok u => simp only [trainModelTrace, hs, hm] at h; simp at h
  · intro hcond
    have hs := (setupTasks_valueError_iff a finetune).mpr hcond
    simp only [trainModelTrace, hs]

/-- Arguments witnessing the amended invalid-strategy behaviour. -/
def c3BadArgs : Args :=
  ⟨strL "multi_task", strL "MTLucifer", none, none, none, none, 1, false⟩

theorem invalid_strategy_error_iff_witness :
    trainModelTrace c3BadArgs false (fun _ => (false, false)) =
      ([], some (.valueError (strL "Invalid modelling strategy"))) :=
  (invalid_strategy_error_iff c3BadArgs false (fun _ => (false, false))).mpr
    ⟨by decide, by decide, by decide⟩

/-- Arguments whose strategy is outside the six documented values but is still
accepted by the startswith-based dispatch. -/
def c3Args : Args :=
  ⟨strL "pretrain+custom", strL "MTLucifer", none, some (strL "LL100"),
    some (strL "FluorescenceData"), none, 1, false⟩

/-- Claim C3 counterexample: `pretrain+custom` is not one of the six
documented `--modelling_strategy` values, yet `train_model` raises no error at
all: the run proceeds and instantiates dataloaders. -/
theorem invalid_strategy_claim_cex :
    c3Args.modelling_strategy ∉ [strL "joint", strL "pretrain+finetune",
        strL "pretrain+linear_probing", strL "pretrain+simple_regression",
        strL "single_task", strL "single_task_simple_regression"] ∧
      (trainModelTrace c3Args false (fun _ => (false, false))).2 = none ∧
      (trainModelTrace c3Args false (fun _ => (false, false))).1 ≠ [] := by
  refine ⟨by decide, by decide, by decide⟩

/-- Claim C10: with a model name starting with `MotifBased`, `train_model`
halts with an assertion failure if and only if the resolved task list is not a
single task drawn from `FluorescenceData`, `FluorescenceData_DE` or
`Malinois_MPRA`. -/
theorem motif_assert_iff (a : Args) (finetune : Bool) (env : SeedEnv) (tasks : List Str)
    (hpfx : startsWithL (strL "MotifBased") a.model_name = true)
    (hok : setupTasks a finetune = .ok tasks) :
    (∃ msg, trainModelTrace a finetune env = ([], some (.assertionError msg))) ↔
      ¬ (tasks.length = 1 ∧ tasks.headD [] ∈ motifAllowedTasks) := by
  constructor
  · rintro ⟨msg, h⟩ ⟨hlen, hmem⟩
    have hmc : motifCheck a.model_name tasks = .ok () := by
      simp only [motifCheck]
      rw [if_pos hpfx, if_pos hlen, if_pos hmem]
    simp only [trainModelTrace, hok, hmc] at h
    simp at h
  · intro hnot
    by_cases hlen : tasks.length = 1
    · have hmem : ¬ (tasks.headD [] ∈ motifAllowedTasks) := fun hm => hnot ⟨hlen, hm⟩
      have hmc : motifCheck a.model_name tasks = .error (.assertionError (strL
          "Motif-based models can only be trained on FluorescenceData, FluorescenceData_DE, or Malinois_MPRA")) := by
        simp only [motifCheck]
        rw [if_pos hpfx, if_pos hlen, if_neg hmem]
      exact ⟨strL "Motif-based models can only be trained on FluorescenceData, FluorescenceData_DE, or Malinois_MPRA",
        by simp only [trainModelTrace, hok, hmc]⟩
    · have hmc : motifCheck a.model_name tasks = .error (.assertionError (strL
          "Motif-based models can only be trained on a single task")) := by
        simp only [motifCheck]
        rw [if_pos hpfx, if_neg hlen]
      exact ⟨strL "Motif-based models can only be trained on a single task",
        by simp only [trainModelTrace, hok, hmc]⟩

/-- Arguments witnessing the motif-based model assertion. -/
def c10Args : Args :=
  ⟨strL "single_task", strL "MotifBasedFCN", none, none, none, some (strL "LL100"), 1, false⟩

theorem motif_assert_iff_witness :
    startsWithL (strL "MotifBased") c10Args.model_name = true ∧
      setupTasks c10Args false = .ok [strL "LL100"] ∧
      ((∃ msg, trainModelTrace c10Args false (fun _ => (false, false)) =
          ([], some (.assertionError msg))) ↔
        ¬ ([strL "LL100"].length = 1 ∧ [strL "LL100"].headD [] ∈ motifAllowedTasks)) :=
  ⟨by decide, rfl,
    motif_assert_iff c10Args false (fun _ => (false, false)) [strL "LL100"]
      (by decide) rfl⟩

/-! ### Seed-loop iteration counts -/

/-- Number of per-seed loop iterations observed in a trace: each iteration
emits exactly one `predicted` event. -/
def countSeedIterations (evs : List Event) : ℕ :=
  evs.countP (fun e => match e with | .predicted _ => true | _ => false)

theorem countSeedIterations_seedRun (strategy : Str) (finetune reuse : Bool) (seed : ℕ) :
    countSeedIterations (seedRunEvents strategy finetune reuse seed) = 1 := by
  rw [seedRunEvents]
  split <;> split <;> rfl

theorem countP_flatMap_ones (p : Event → Bool) (l : List ℕ) (f : ℕ → List Event)
    (h : ∀ x ∈ l, (f x).countP p = 1) : (l.flatMap f).countP p = l.length := by
  induction l with
  | nil => rfl
  | cons x xs ih =>
    rw [List.flatMap_cons, List.countP_append, h x (by simp),
      ih (fun y hy => h y (by simp [hy])), List.length_cons]
    omega

/-- Claim C9: a `train_model` invocation that does not halt trains exactly one
model (one seed-loop iteration) when the strategy contains `pretrain` and this
is the pretraining phase, regardless of `--num_random_seeds`; in every other
phase the seed loop executes `--num_random_seeds` times. -/
theorem seed_loop_iterations (a : Args) (finetune : Bool) (env : SeedEnv)
    (hok : (trainModelTrace a finetune env).2 = none) :
    countSeedIterations (trainModelTrace a finetune env).1 =
      (if containsSubL (strL "pretrain") a.modelling_strategy && !finetune then 1
       else a.num_random_seeds) := by
  cases hs : setupTasks a finetune with
  | error e =>
    exfalso
    simp only [trainModelTrace, hs] at hok
    simp at hok
  | ok tasks =>
    cases hm : motifCheck a.model_name tasks with
    | error e =>
      exfalso
      simp only [trainModelTrace, hs, hm] at hok
      simp at hok
    | ok u =>
      have htr : (trainModelTrace a finetune env).1 =
          (if containsSubL (strL "pretrain") a.modelling_strategy && finetune then
              [Event.loadedPretrained] else []) ++
            tasks.map Event.dataloaderCreated ++
            (List.range (numModelsToTrain a finetune)).flatMap (fun seed =>
              seedRunEvents a.modelling_strategy finetune
                (reuseDecision a.use_existing_models (env seed).1 (env seed).2) seed) := by
        simp only [trainModelTrace, hs, hm]
      rw [htr]
      rw [countSeedIterations, List.countP_append, List.countP_append]
      have h1 : (if containsSubL (strL "pretrain") a.modelling_strategy && finetune then
          [Event.loadedPretrained] else []).countP
            (fun e => match e with | .predicted _ => true | _ => false) = 0 := by
        split <;> rfl
      have h2 : (tasks.map Event.dataloaderCreated).countP
          (fun e => match e with | .predicted _ => true | _ => false) = 0 := by
        rw [List.countP_eq_zero]
        intro e he
        rcases List.mem_map.mp he with ⟨t, _, rfl⟩
        simp
      have h3 := countP_flatMap_ones
        (fun e => match e with | .predicted _ => true | _ => false)
        (List.range (numModelsToTrain a finetune))
        (fun seed => seedRunEvents a.modelling_strategy finetune
          (reuseDecision a.use_existing_models (env seed).1 (env seed).2) seed)
        (fun x _ => countSeedIterations_seedRun _ _ _ _)
      rw [h1, h2, h3, List.length_range]
      rw [numModelsToTrain]
      simp only [Nat.zero_add]

theorem seed_loop_iterations_witness :
    ((trainModelTrace c3Args false (fun _ => (false, false))).2 = none) ∧
      countSeedIterations (trainModelTrace c3Args false (fun _ => (false, false))).1 =
        (if containsSubL (strL "pretrain") c3Args.modelling_strategy && !false then 1
         else c3Args.num_random_seeds) :=
  ⟨by decide, seed_loop_iterations c3Args false (fun _ => (false, false)) (by decide)⟩

/-! ### Model reuse and the `done.txt` sentinel -/

/-- Claim C5: an existing model is reused — loaded and evaluated without
retraining — if and only if `--use_existing_models` is set, the run's
checkpoint directory exists, and the `done.txt` sentinel exists; in every
other case the model is trained and the `done.txt` sentinel is written only
after the training step completes. -/
theorem reuse_decision_and_done_ordering (useExisting dirExists doneExists : Bool)
    (strategy : Str) (finetune : Bool) (seed : ℕ) :
    (reuseDecision useExisting dirExists doneExists = true ↔
      (useExisting = true ∧ dirExists = true ∧ doneExists = true)) ∧
    (Event.wroteDone seed ∉ seedRunEvents strategy finetune true seed ∧
      Event.fit seed ∉ seedRunEvents strategy finetune true seed ∧
      Event.simpleRegFit seed ∉ seedRunEvents strategy finetune true seed ∧
      Event.predicted seed ∈ seedRunEvents strategy finetune true seed ∧
      (Event.loadedExisting seed ∈ seedRunEvents strategy finetune true seed ∨
        Event.simpleRegLoad seed ∈ seedRunEvents strategy finetune true seed)) ∧
    (∃ pre post, seedRunEvents strategy finetune false seed =
        pre ++ Event.wroteDone seed :: post ∧
      (Event.fit seed ∈ pre ∨ Event.simpleRegFit seed ∈ pre) ∧
      Event.wroteDone seed ∉ pre) := by
  refine ⟨?_, ?_, ?_⟩
  · cases useExisting <;> cases dirExists <;> cases doneExists <;> simp [reuseDecision]
  · rw [seedRunEvents]
    simp only [if_true]
    by_cases hsr : isSimpleRegressionRun strategy finetune = true
    · rw [if_pos hsr]
      exact ⟨by simp, by simp, by simp, by simp, Or.inr (by simp)⟩
    · rw [if_neg hsr]
      exact ⟨by simp, by simp, by simp, by simp, Or.inl (by simp)⟩
  · rw [seedRunEvents]
    simp only [Bool.false_eq_true, if_false]
    by_cases hsr : isSimpleRegressionRun strategy finetune = true
    · rw [if_pos hsr]
      exact ⟨[.simpleRegFit seed], [.predicted seed], rfl, Or.inr (by simp), by simp⟩
    · rw [if_neg hsr]
      exact ⟨[.fit seed], [.predicted seed], rfl, Or.inl (by simp), by simp⟩

theorem reuse_decision_and_done_ordering_witness :
    (reuseDecision true true false = true ↔
      (true = true ∧ true = true ∧ false = true)) ∧
    (Event.wroteDone 0 ∉ seedRunEvents (strL "joint") false true 0 ∧
      Event.fit 0 ∉ seedRunEvents (strL "joint") false true 0 ∧
      Event.simpleRegFit 0 ∉ seedRunEvents (strL "joint") false true 0 ∧
      Event.predicted 0 ∈ seedRunEvents (strL "joint") false true 0 ∧
      (Event.loadedExisting 0 ∈ seedRunEvents (strL "joint") false true 0 ∨
        Event.simpleRegLoad 0 ∈ seedRunEvents (strL "joint") false true 0)) ∧
    (∃ pre post, seedRunEvents (strL "joint") false false 0 =
        pre ++ Event.wroteDone 0 :: post ∧
      (Event.fit 0 ∈ pre ∨ Event.simpleRegFit 0 ∈ pre) ∧
      Event.wroteDone 0 ∉ pre) :=
  reuse_decision_and_done_ordering true true false (strL "joint") false 0

/-! ### NaN handling before metric computation -/

/-- A prediction or target entry: a numeric value or a float NaN. -/
inductive FVal where
  | nan
  | num (q : ℚ)
deriving DecidableEq

/-- Whether a value is NaN (one entry of `np.isnan`). -/
def FVal.isNan : FVal → Bool
  | .nan => true
  | .num _ => false

/-- `np.isnan(v).any()` on a vector. -/
def hasNaN (l : List FVal) : Bool := l.any FVal.isNan

/-- One entry of `np.nan_to_num`: NaN becomes 0, finite numbers are
unchanged. -/
def nanToNum : FVal → FVal
  | .nan => .num 0
  | .num q => .num q

/-- The classification branch's handling of a prediction column (lines
754-758): if the column contains NaN, a warning is printed (first component
`true`) and the column is zero-filled before the sigmoid/round and the
accuracy/precision/recall/F1 computations. -/
def classifPredForMetrics (pred : List FVal) : Bool × List FVal :=
  if hasNaN pred then (true, pred.map nanToNum) else (false, pred)

/-- `cur_y != -100000`, one entry of the Malinois mask (line 840); NaN
compares unequal to every number. -/
def FVal.keepMalinois : FVal → Bool
  | .nan => true
  | .num q => decide (q ≠ -100000)

/-- Filtering `(cur_y, cur_pred)` by the mask over `cur_y` (lines 840-842). -/
def malinoisMask : List FVal → List FVal → List FVal × List FVal
  | yv :: ys, pv :: ps =>
    let r := malinoisMask ys ps
    if yv.keepMalinois then (yv :: r.1, pv :: r.2) else r
  | _, _ => ([], [])

/-- The regression branch's preparation of a column (lines 834-848): for
Malinois dataloaders the `-100000` targets are masked out; the resulting
`(cur_y, cur_pred)` pair is what `r2_score` / `pearsonr` / `spearmanr` are
computed on.  This branch contains no NaN detection, warning or
zero-filling. -/
def regressionMetricInputs (dlName : Str) (y pred : List FVal) :
    List FVal × List FVal :=
  if containsSubL (strL "MalinoisMPRA") dlName then malinoisMask y pred else (y, pred)

/-- Claim C2 counterexample: a NaN prediction entering the regression branch
reaches the R2/Pearson/Spearman computation unchanged — it is neither
detected, nor warned about, nor zero-filled. -/
theorem regression_nan_passthrough_cex :
    hasNaN (regressionMetricInputs (strL "FluorescenceData")
        [FVal.num 1] [FVal.nan]).2 = true ∧
      (regressionMetricInputs (strL "FluorescenceData") [FVal.num 1] [FVal.nan]).2 =
        [FVal.nan] := by
  exact ⟨by decide, by decide⟩

theorem isNan_nanToNum (v : FVal) : (nanToNum v).isNan = false := by
  cases v <;> rfl

theorem malinoisMask_sublist : ∀ y p : List FVal, ((malinoisMask y p).2).Sublist p := by
  intro y
  induction y with
  | nil => intro p; cases p <;> simp [malinoisMask]
  | cons yv ys ih =>
    intro p
    cases p with
    | nil => simp [malinoisMask]
    | cons pv ps =>
      simp only [malinoisMask]
      split
      · exact List.Sublist.cons₂ pv (ih ps)
      · exact List.Sublist.cons pv (ih ps)

/-- Claim C2 (amended): NaN detection, the warning and the zero-fill happen
only in the classification branch — there the vector reaching the
accuracy/precision/recall/F1 computation never contains NaN, the warning
fires exactly when the original column has NaN, and a NaN-free column passes
through unchanged.  The regression branch hands predictions to
R2/Pearson/Spearman unchanged apart from the Malinois target mask (the used
vector is a sublist of the original prediction column), with no NaN
replacement. -/
theorem nan_handling_amended :
    (∀ pred : List FVal,
      hasNaN (classifPredForMetrics pred).2 = false ∧
      (classifPredForMetrics pred).1 = hasNaN pred ∧
      (hasNaN pred = false → (classifPredForMetrics pred).2 = pred)) ∧
    (∀ (dlName : Str) (y pred : List FVal),
      ((regressionMetricInputs dlName y pred).2).Sublist pred) := by
  constructor
  · intro pred
    by_cases hn : hasNaN pred = true
    · refine ⟨?_, ?_, ?_⟩
      · simp only [classifPredForMetrics, hn, if_true]
        simp only [hasNaN, List.any_map, Function.comp]
        rw [List.any_eq_false]
        intro v _
        simp only [Function.comp_apply]
        rw [isNan_nanToNum v]
        simp
      · simp [classifPredForMetrics, hn]
      · intro hf; rw [hf] at hn; cases hn
    · have hn' : hasNaN pred = false := by rwa [Bool.not_eq_true] at hn
      refine ⟨?_, ?_, ?_⟩
      · simp [classifPredForMetrics, hn', hn]
      · simp [classifPredForMetrics, hn', hn]
      · intro _; simp [classifPredForMetrics, hn', hn]
  · intro dlName y pred
    rw [regressionMetricInputs]
    split
    · exact malinoisMask_sublist y pred
    · exact List.Sublist.refl pred

theorem nan_handling_amended_witness :
    hasNaN (classifPredForMetrics [FVal.nan]).2 = false ∧
      (classifPredForMetrics [FVal.nan]).1 = hasNaN [FVal.nan] ∧
      ((regressionMetricInputs (strL "MalinoisMPRA_dl")
          [FVal.num 1] [FVal.nan]).2).Sublist [FVal.nan] :=
  ⟨(nan_handling_amended.1 [FVal.nan]).1, (nan_handling_amended.1 [FVal.nan]).2.1,
    nan_handling_amended.2 (strL "MalinoisMPRA_dl") [FVal.num 1] [FVal.nan]⟩

/-! ### The JSON summary of per-seed metrics (lines 1108-1258)

The summary starts from `vars(args)` (modelled as an arbitrary initial map)
and is filled by dictionary assignments.  Metric values are rationals; since
`np.std` is an irrational square root, a stored standard deviation is encoded
by its variance (`SVal.vstd v` denotes the float `sqrt v`), and a stored
display string `"avg +- std"` by its two components (`SVal.vdisp avg v`
denotes the string built from `avg` and `sqrt v`). -/

/-- A value stored in the summary dictionary. -/
inductive SVal where
  | vlist (l : List ℚ)
  | vnum (q : ℚ)
  | vstd (variance : ℚ)
  | vdisp (avg variance : ℚ)
deriving DecidableEq

/-- `np.average` of a list of per-seed metric values. -/
def npAverage (l : List ℚ) : ℚ := l.sum / l.length

/-- The square of `np.std` (population variance, `ddof=0`). -/
def npVarianceQ (l : List ℚ) : ℚ :=
  (l.map (fun x => (x - npAverage l) ^ 2)).sum / l.length

/-- The summary dictionary, as a map from key to stored value. -/
def SummMap : Type := Str → Option SVal

/-- Dictionary assignment `summary[k] = v`. -/
def updateS (m : SummMap) (k : Str) (v : SVal) : SummMap :=
  fun k' => if k' = k then some v else m k'

/-- A sequence of dictionary assignments, leftmost first. -/
def applyWrites (m : SummMap) (ws : List (Str × SVal)) : SummMap :=
  ws.foldl (fun acc p => updateS acc p.1 p.2) m

/-- Per-seed classification metric lists of one output column
(`all_seeds_accuracy[output]` and its three siblings; the four dicts share
their key set, so they are modelled as one record per output). -/
structure ClassRec where
  accL : List ℚ
  precL : List ℚ
  recL : List ℚ
  f1L : List ℚ
deriving DecidableEq

/-- Per-seed regression metric lists of one output column
(`all_seeds_r2[output]` and its two siblings). -/
structure RegrRec where
  r2L : List ℚ
  pearsonL : List ℚ
  srhoL : List ℚ
deriving DecidableEq

/-- Per-seed replicate-concordance lists of one output column. -/
structure ReplRec where
  pearsonL : List ℚ
  srhoL : List ℚ
deriving DecidableEq

/-- The assignments of the classification loop body (lines 1128-1146), in
source order. -/
def classWrites (out : Str) (r : ClassRec) : List (Str × SVal) :=
  [(out ++ strL "_all_Accuracy", .vlist r.accL),
   (out ++ strL "_all_Precision", .vlist r.precL),
   (out ++ strL "_all_Recall", .vlist r.recL),
   (out ++ strL "_all_F1", .vlist r.f1L),
   (out ++ strL "_avg_Accuracy", .vnum (npAverage r.accL)),
   (out ++ strL "_avg_Precision", .vnum (npAverage r.precL)),
   (out ++ strL "_avg_Recall", .vnum (npAverage r.recL)),
   (out ++ strL "_avg_F1", .vnum (npAverage r.f1L)),
   (out ++ strL "_std_Accuracy", .vstd (npVarianceQ r.accL)),
   (out ++ strL "_std_Precision", .vstd (npVarianceQ r.precL)),
   (out ++ strL "_std_Recall", .vstd (npVarianceQ r.recL)),
   (out ++ strL "_std_F1", .vstd (npVarianceQ r.f1L)),
   (out ++ strL "_avg_Accuracy_disp", .vdisp (npAverage r.accL) (npVarianceQ r.accL)),
   (out ++ strL "_avg_Precision_disp", .vdisp (npAverage r.precL) (npVarianceQ r.precL)),
   (out ++ strL "_avg_Recall_disp", .vdisp (npAverage r.recL) (npVarianceQ r.recL)),
   (out ++ strL "_avg_F1_disp", .vdisp (npAverage r.f1L) (npVarianceQ r.f1L))]

/-- The assignments of the highly-expressed classification loop body
(lines 1166-1184). -/
def classHighWrites (out : Str) (r : ClassRec) : List (Str × SVal) :=
  [(out ++ strL "_all_Accuracy_highly_expressed", .vlist r.accL),
   (out ++ strL "_all_Precision_highly_expressed", .vlist r.precL),
   (out ++ strL "_all_Recall_highly_expressed", .vlist r.recL),
   (out ++ strL "_all_F1_highly_expressed", .vlist r.f1L),
   (out ++ strL "_avg_Accuracy_highly_expressed", .vnum (npAverage r.accL)),
   (out ++ strL "_avg_Precision_highly_expressed", .vnum (npAverage r.precL)),
   (out ++ strL "_avg_Recall_highly_expressed", .vnum (npAverage r.recL)),
   (out ++ strL "_avg_F1_highly_expressed", .vnum (npAverage r.f1L)),
   (out ++ strL "_std_Accuracy_highly_expressed", .vstd (npVarianceQ r.accL)),
   (out ++ strL "_std_Precision_highly_expressed", .vstd (npVarianceQ r.precL)),
   (out ++ strL "_std_Recall_highly_expressed", .vstd (npVarianceQ r.recL)),
   (out ++ strL "_std_F1_highly_expressed", .vstd (npVarianceQ r.f1L)),
   (out ++ strL "_avg_Accuracy_highly_expressed_disp",
     .vdisp (npAverage r.accL) (npVarianceQ r.accL)),
   (out ++ strL "_avg_Precision_highly_expressed_disp",
     .vdisp (npAverage r.precL) (npVarianceQ r.precL)),
   (out ++ strL "_avg_Recall_highly_expressed_disp",
     .vdisp (npAverage r.recL) (npVarianceQ r.recL)),
   (out ++ strL "_avg_F1_highly_expressed_disp",
     .vdisp (npAverage r.f1L) (npVarianceQ r.f1L))]

/-- The assignments of the lowly-expressed accuracy loop body
(lines 1194-1200). -/
def classLowWrites (out : Str) (l : List ℚ) : List (Str × SVal) :=
  [(out ++ strL "_all_Accuracy_lowly_expressed", .vlist l),
   (out ++ strL "_avg_Accuracy_lowly_expressed", .vnum (npAverage l)),
   (out ++ strL "_std_Accuracy_lowly_expressed", .vstd (npVarianceQ l)),
   (out ++ strL "_avg_Accuracy_lowly_expressed_disp",
     .vdisp (npAverage l) (npVarianceQ l))]

/-- The assignments of the regression loop body (lines 1216-1230), in source
order. -/
def regrWrites (out : Str) (r : RegrRec) : List (Str × SVal) :=
  [(out ++ strL "_all_R2", .vlist r.r2L),
   (out ++ strL "_all_PearsonR", .vlist r.pearsonL),
   (out ++ strL "_all_SpearmanR", .vlist r.srhoL),
   (out ++ strL "_avg_R2", .vnum (npAverage r.r2L)),
   (out ++ strL "_avg_PearsonR", .vnum (npAverage r.pearsonL)),
   (out ++ strL "_avg_SpearmanR", .vnum (npAverage r.srhoL)),
   (out ++ strL "_std_R2", .vstd (npVarianceQ r.r2L)),
   (out ++ strL "_std_PearsonR", .vstd (npVarianceQ r.pearsonL)),
   (out ++ strL "_std_SpearmanR", .vstd (npVarianceQ r.srhoL)),
   (out ++ strL "_avg_R2_disp", .vdisp (npAverage r.r2L) (npVarianceQ r.r2L)),
   (out ++ strL "_avg_PearsonR_disp", .vdisp (npAverage r.pearsonL) (npVarianceQ r.pearsonL)),
   (out ++ strL "_avg_SpearmanR_disp", .vdisp (npAverage r.srhoL) (npVarianceQ r.srhoL))]

/-- The assignments of the replicate-concordance loop body (lines 1244-1254). -/
def replWrites (out : Str) (r : ReplRec) : List (Str × SVal) :=
  [(out ++ strL "_all_ReplicateConcordancePearsonR", .vlist r.pearsonL),
   (out ++ strL "_all_ReplicateConcordanceSpearmanR", .vlist r.srhoL),
   (out ++ strL "_avg_ReplicateConcordancePearsonR", .vnum (npAverage r.pearsonL)),
   (out ++ strL "_avg_ReplicateConcordanceSpearmanR", .vnum (npAverage r.srhoL)),
   (out ++ strL "_std_ReplicateConcordancePearsonR", .vstd (npVarianceQ r.pearsonL)),
   (out ++ strL "_std_ReplicateConcordanceSpearmanR", .vstd (npVarianceQ r.srhoL)),
   (out ++ strL "_avg_ReplicateConcordancePearsonR_disp",
     .vdisp (npAverage r.pearsonL) (npVarianceQ r.pearsonL)),
   (out ++ strL "_avg_ReplicateConcordanceSpearmanR_disp",
     .vdisp (npAverage r.srhoL) (npVarianceQ r.srhoL))]

/-- The summary map after the five aggregation loops ran over the initial
`vars(args)` map, in source order: classification, highly-expressed,
lowly-expressed, regression, then (only when a `FluorescenceData` dataloader
is present) replicate concordance. -/
def buildSummary (init : SummMap) (classD classHighD : List (Str × ClassRec))
    (classLowD : List (Str × List ℚ)) (regrD : List (Str × RegrRec))
    (replD : List (Str × ReplRec)) (hasFluor : Bool) : SummMap :=
  applyWrites init (
    classD.flatMap (fun p => classWrites p.1 p.2) ++
    classHighD.flatMap (fun p => classHighWrites p.1 p.2) ++
    classLowD.flatMap (fun p => classLowWrites p.1 p.2) ++
    regrD.flatMap (fun p => regrWrites p.1 p.2) ++
    (if hasFluor then replD.flatMap (fun p => replWrites p.1 p.2) else []))

/-- The summary actually saved to the JSON file: written only under the guard
`len(all_seeds_r2) > 0 or len(all_seeds_accuracy) > 0` (line 1108). -/
def savedSummary (init : SummMap) (classD classHighD : List (Str × ClassRec))
    (classLowD : List (Str × List ℚ)) (regrD : List (Str × RegrRec))
    (replD : List (Str × ReplRec)) (hasFluor : Bool) : Option SummMap :=
  if !regrD.isEmpty || !classD.isEmpty then
    some (buildSummary init classD classHighD classLowD regrD replD hasFluor)
  else none

/-- The key suffixes written by the classification loop. -/
def classSfx : List Str :=
  [strL "_all_Accuracy", strL "_all_Precision", strL "_all_Recall", strL "_all_F1",
   strL "_avg_Accuracy", strL "_avg_Precision", strL "_avg_Recall", strL "_avg_F1",
   strL "_std_Accuracy", strL "_std_Precision", strL "_std_Recall", strL "_std_F1",
   strL "_avg_Accuracy_disp", strL "_avg_Precision_disp", strL "_avg_Recall_disp",
   strL "_avg_F1_disp"]

/-- The key suffixes written by the highly-expressed classification loop. -/
def classHighSfx : List Str :=
  [strL "_all_Accuracy_highly_expressed", strL "_all_Precision_highly_expressed",
   strL "_all_Recall_highly_expressed", strL "_all_F1_highly_expressed",
   strL "_avg_Accuracy_highly_expressed", strL "_avg_Precision_highly_expressed",
   strL "_avg_Recall_highly_expressed", strL "_avg_F1_highly_expressed",
   strL "_std_Accuracy_highly_expressed", strL "_std_Precision_highly_expressed",
   strL "_std_Recall_highly_expressed", strL "_std_F1_highly_expressed",
   strL "_avg_Accuracy_highly_expressed_disp", strL "_avg_Precision_highly_expressed_disp",
   strL "_avg_Recall_highly_expressed_disp", strL "_avg_F1_highly_expressed_disp"]

/-- The key suffixes written by the lowly-expressed accuracy loop. -/
def classLowSfx : List Str :=
  [strL "_all_Accuracy_lowly_expressed", strL "_avg_Accuracy_lowly_expressed",
   strL "_std_Accuracy_lowly_expressed", strL "_avg_Accuracy_lowly_expressed_disp"]

/-- The key suffixes written by the regression loop. -/
def regrSfx : List Str :=
  [strL "_all_R2", strL "_all_PearsonR", strL "_all_SpearmanR",
   strL "_avg_R2", strL "_avg_PearsonR", strL "_avg_SpearmanR",
   strL "_std_R2", strL "_std_PearsonR", strL "_std_SpearmanR",
   strL "_avg_R2_disp", strL "_avg_PearsonR_disp", strL "_avg_SpearmanR_disp"]

/-- The key suffixes written by the replicate-concordance loop. -/
def replSfx : List Str :=
  [strL "_all_ReplicateConcordancePearsonR", strL "_all_ReplicateConcordanceSpearmanR",
   strL "_avg_ReplicateConcordancePearsonR", strL "_avg_ReplicateConcordanceSpearmanR",
   strL "_std_ReplicateConcordancePearsonR", strL "_std_ReplicateConcordanceSpearmanR",
   strL "_avg_ReplicateConcordancePearsonR_disp",
   strL "_avg_ReplicateConcordanceSpearmanR_disp"]

/-- Two suffixes are compatible when one is a suffix of the other, the only
way `a ++ s = b ++ t` can hold. -/
def suffCompat (s t : Str) : Bool :=
  startsWithL s.reverse t.reverse || startsWithL t.reverse s.reverse

theorem startsWith_or_of_append {x u y v : List Char} (h : x ++ u = y ++ v) :
    (startsWithL x y || startsWithL y x) = true := by
  induction x generalizing y with
  | nil => simp [startsWithL]
  | cons c xs ih =>
    cases y with
    | nil => simp [startsWithL]
    | cons d ys =>
      simp only [List.cons_append, List.cons.injEq] at h
      obtain ⟨rfl, h2⟩ := h
      simpa [startsWithL] using ih h2

theorem append_cancel_r {a b s : Str} (h : a ++ s = b ++ s) : a = b := by
  have h2 := congrArg List.reverse h
  simp only [List.reverse_append] at h2
  exact List.reverse_injective (List.append_cancel_left h2)

theorem suffCompat_symm (s t : Str) : suffCompat s t = suffCompat t s := by
  rw [suffCompat, suffCompat, Bool.or_comm]

theorem key_ne_of_suffCompat_false {s t : Str} (h : suffCompat s t = false)
    (a b : Str) : a ++ s ≠ b ++ t := by
  intro heq
  have h2 := congrArg List.reverse heq
  simp only [List.reverse_append] at h2
  have h3 := startsWith_or_of_append h2
  rw [suffCompat] at h
  rw [h3] at h
  cases h

theorem classSfx_nodup : classSfx.Nodup := by decide

theorem regrSfx_nodup : regrSfx.Nodup := by decide

theorem classSfx_self_compat :
    ∀ s ∈ classSfx, ∀ t ∈ classSfx, s = t ∨ suffCompat s t = false := by decide

theorem regrSfx_self_compat :
    ∀ s ∈ regrSfx, ∀ t ∈ regrSfx, s = t ∨ suffCompat s t = false := by decide

theorem classSfx_compat_high :
    ∀ s ∈ classSfx, ∀ t ∈ classHighSfx, suffCompat s t = false := by decide

theorem classSfx_compat_low :
    ∀ s ∈ classSfx, ∀ t ∈ classLowSfx, suffCompat s t = false := by decide

theorem classSfx_compat_regr :
    ∀ s ∈ classSfx, ∀ t ∈ regrSfx, suffCompat s t = false := by decide

theorem classSfx_compat_repl :
    ∀ s ∈ classSfx, ∀ t ∈ replSfx, suffCompat s t = false := by decide

theorem regrSfx_compat_repl :
    ∀ s ∈ regrSfx, ∀ t ∈ replSfx, suffCompat s t = false := by decide

theorem applyWrites_append (m : SummMap) (ws1 ws2 : List (Str × SVal)) :
    applyWrites m (ws1 ++ ws2) = applyWrites (applyWrites m ws1) ws2 := by
  simp [applyWrites, List.foldl_append]

theorem applyWrites_no_key (m : SummMap) (ws : List (Str × SVal)) (k : Str)
    (h : ∀ p ∈ ws, p.1 ≠ k) : applyWrites m ws k = m k := by
  induction ws generalizing m with
  | nil => rfl
  | cons p t ih =>
    have hstep : applyWrites m (p :: t) = applyWrites (updateS m p.1 p.2) t := rfl
    rw [hstep, ih _ (fun q hq => h q (by simp [hq]))]
    simp only [updateS]
    exact if_neg (fun he => (h p (by simp)) he.symm)

theorem applyWrites_found (m : SummMap) (ws1 : List (Str × SVal)) (k : Str) (v : SVal)
    (ws2 : List (Str × SVal)) (h2 : ∀ p ∈ ws2, p.1 ≠ k) :
    applyWrites m (ws1 ++ (k, v) :: ws2) k = some v := by
  rw [applyWrites_append]
  have hc : applyWrites (applyWrites m ws1) ((k, v) :: ws2) =
      applyWrites (updateS (applyWrites m ws1) k v) ws2 := rfl
  rw [hc, applyWrites_no_key _ _ _ h2]
  simp [updateS]

theorem applyWrites_block (m : SummMap) (ws pre B post : List (Str × SVal))
    (k : Str) (v : SVal) (hws : ws = pre ++ (B ++ post)) (hmem : (k, v) ∈ B)
    (hnd : (B.map Prod.fst).Nodup) (hpost : ∀ p ∈ post, p.1 ≠ k) :
    applyWrites m ws k = some v := by
  obtain ⟨b1, b2, rfl⟩ := List.append_of_mem hmem
  have hk2 : k ∉ b2.map Prod.fst := by
    rw [List.map_append, List.map_cons] at hnd
    exact (List.nodup_cons.mp (List.Nodup.of_append_right hnd)).1
  have hrw : pre ++ ((b1 ++ (k, v) :: b2) ++ post) = (pre ++ b1) ++ (k, v) :: (b2 ++ post) := by
    simp [List.append_assoc]
  rw [hws, hrw]
  apply applyWrites_found
  intro p hp
  rcases List.mem_append.mp hp with hb | hpo
  · intro he
    exact hk2 (he ▸ List.mem_map_of_mem Prod.fst hb)
  · exact hpost p hpo

theorem classWrites_keys (o : Str) (r : ClassRec) :
    (classWrites o r).map Prod.fst = classSfx.map (fun s => o ++ s) := rfl

theorem classHighWrites_keys (o : Str) (r : ClassRec) :
    (classHighWrites o r).map Prod.fst = classHighSfx.map (fun s => o ++ s) := rfl

theorem classLowWrites_keys (o : Str) (l : List ℚ) :
    (classLowWrites o l).map Prod.fst = classLowSfx.map (fun s => o ++ s) := rfl

theorem regrWrites_keys (o : Str) (r : RegrRec) :
    (regrWrites o r).map Prod.fst = regrSfx.map (fun s => o ++ s) := rfl

theorem replWrites_keys (o : Str) (r : ReplRec) :
    (replWrites o r).map Prod.fst = replSfx.map (fun s => o ++ s) := rfl

theorem classWrites_key_shape {o : Str} {r : ClassRec} {p : Str × SVal}
    (hp : p ∈ classWrites o r) : ∃ s ∈ classSfx, p.1 = o ++ s := by
  have h1 : p.1 ∈ (classWrites o r).map Prod.fst := List.mem_map_of_mem _ hp
  rw [classWrites_keys] at h1
  rcases List.mem_map.mp h1 with ⟨s, hs, h⟩
  exact ⟨s, hs, h.symm⟩

theorem classHighWrites_key_shape {o : Str} {r : ClassRec} {p : Str × SVal}
    (hp : p ∈ classHighWrites o r) : ∃ s ∈ classHighSfx, p.1 = o ++ s := by
  have h1 : p.1 ∈ (classHighWrites o r).map Prod.fst := List.mem_map_of_mem _ hp
  rw [classHighWrites_keys] at h1
  rcases List.mem_map.mp h1 with ⟨s, hs, h⟩
  exact ⟨s, hs, h.symm⟩

theorem classLowWrites_key_shape {o : Str} {l : List ℚ} {p : Str × SVal}
    (hp : p ∈ classLowWrites o l) : ∃ s ∈ classLowSfx, p.1 = o ++ s := by
  have h1 : p.1 ∈ (classLowWrites o l).map Prod.fst := List.mem_map_of_mem _ hp
  rw [classLowWrites_keys] at h1
  rcases List.mem_map.mp h1 with ⟨s, hs, h⟩
  exact ⟨s, hs, h.symm⟩

theorem regrWrites_key_shape {o : Str} {r : RegrRec} {p : Str × SVal}
    (hp : p ∈ regrWrites o r) : ∃ s ∈ regrSfx, p.1 = o ++ s := by
  have h1 : p.1 ∈ (regrWrites o r).map Prod.fst := List.mem_map_of_mem _ hp
  rw [regrWrites_keys] at h1
  rcases List.mem_map.mp h1 with ⟨s, hs, h⟩
  exact ⟨s, hs, h.symm⟩

theorem replWrites_key_shape {o : Str} {r : ReplRec} {p : Str × SVal}
    (hp : p ∈ replWrites o r) : ∃ s ∈ replSfx, p.1 = o ++ s := by
  have h1 : p.1 ∈ (replWrites o r).map Prod.fst := List.mem_map_of_mem _ hp
  rw [replWrites_keys] at h1
  rcases List.mem_map.mp h1 with ⟨s, hs, h⟩
  exact ⟨s, hs, h.symm⟩

theorem append_left_inj (o : Str) : Function.Injective (fun s : Str => o ++ s) :=
  fun _ _ h => List.append_cancel_left h

theorem classWrites_keys_nodup (o : Str) (r : ClassRec) :
    ((classWrites o r).map Prod.fst).Nodup := by
  rw [classWrites_keys]
  exact classSfx_nodup.map (append_left_inj o)

theorem regrWrites_keys_nodup (o : Str) (r : RegrRec) :
    ((regrWrites o r).map Prod.fst).Nodup := by
  rw [regrWrites_keys]
  exact regrSfx_nodup.map (append_left_inj o)

theorem buildSummary_class_key (init : SummMap) (classD classHighD : List (Str × ClassRec))
    (classLowD : List (Str × List ℚ)) (regrD : List (Str × RegrRec))
    (replD : List (Str × ReplRec)) (hasFluor : Bool)
    (out : Str) (r : ClassRec) (hmem : (out, r) ∈ classD)
    (hnd : (classD.map Prod.fst).Nodup)
    (s : Str) (hs : s ∈ classSfx) (v : SVal) (hv : (out ++ s, v) ∈ classWrites out r) :
    buildSummary init classD classHighD classLowD regrD replD hasFluor (out ++ s) = some v := by
  obtain ⟨d1, d2, rfl⟩ := List.append_of_mem hmem
  have hout2 : out ∉ d2.map Prod.fst := by
    rw [List.map_append, List.map_cons] at hnd
    exact (List.nodup_cons.mp (List.Nodup.of_append_right hnd)).1
  rw [buildSummary]
  apply applyWrites_block _ _ (d1.flatMap (fun p => classWrites p.1 p.2)) (classWrites out r)
      (d2.flatMap (fun p => classWrites p.1 p.2) ++
        (classHighD.flatMap (fun p => classHighWrites p.1 p.2) ++
          (classLowD.flatMap (fun p => classLowWrites p.1 p.2) ++
            (regrD.flatMap (fun p => regrWrites p.1 p.2) ++
              (if hasFluor then replD.flatMap (fun p => replWrites p.1 p.2) else [])))))
      _ v ?_ hv (classWrites_keys_nodup out r) ?_
  · simp [List.flatMap_append, List.append_assoc]
  · intro p hp
    rcases List.mem_append.mp hp with h2 | hrest
    · rcases List.mem_flatMap.mp h2 with ⟨q, hq, hpq⟩
      rcases classWrites_key_shape hpq with ⟨s', hs', hkey⟩
      rw [hkey]
      rcases classSfx_self_compat s hs s' hs' with he | hcf
      · subst he
        intro heq
        exact hout2 ((append_cancel_r heq) ▸ List.mem_map_of_mem Prod.fst hq)
      · exact key_ne_of_suffCompat_false ((suffCompat_symm s s') ▸ hcf) q.1 out
    rcases List.mem_append.mp hrest with h2 | hrest
    · rcases List.mem_flatMap.mp h2 with ⟨q, _, hpq⟩
      rcases classHighWrites_key_shape hpq with ⟨s', hs', hkey⟩
      rw [hkey]
      exact key_ne_of_suffCompat_false
        ((suffCompat_symm s s') ▸ classSfx_compat_high s hs s' hs') q.1 out
    rcases List.mem_append.mp hrest with h2 | hrest
    · rcases List.mem_flatMap.mp h2 with ⟨q, _, hpq⟩
      rcases classLowWrites_key_shape hpq with ⟨s', hs', hkey⟩
      rw [hkey]
      exact key_ne_of_suffCompat_false
        ((suffCompat_symm s s') ▸ classSfx_compat_low s hs s' hs') q.1 out
    rcases List.mem_append.mp hrest with h2 | hrest
    · rcases List.mem_flatMap.mp h2 with ⟨q, _, hpq⟩
      rcases regrWrites_key_shape hpq with ⟨s', hs', hkey⟩
      rw [hkey]
      exact key_ne_of_suffCompat_false
        ((suffCompat_symm s s') ▸ classSfx_compat_regr s hs s' hs') q.1 out
    · have hrest' : p ∈ replD.flatMap (fun p => replWrites p.1 p.2) := by
        cases hasFluor with
        | false =>
          rw [if_neg (by decide : ¬ (false = true))] at hrest
          exact absurd hrest (List.not_mem_nil p)
        | true => rwa [if_pos rfl] at hrest
      rcases List.mem_flatMap.mp hrest' with ⟨q, _, hpq⟩
      rcases replWrites_key_shape hpq with ⟨s', hs', hkey⟩
      rw [hkey]
      exact key_ne_of_suffCompat_false
        ((suffCompat_symm s s') ▸ classSfx_compat_repl s hs s' hs') q.1 out

theorem buildSummary_regr_key (init : SummMap) (classD classHighD : List (Str × ClassRec))
    (classLowD : List (Str × List ℚ)) (regrD : List (Str × RegrRec))
    (replD : List (Str × ReplRec)) (hasFluor : Bool)
    (out : Str) (r : RegrRec) (hmem : (out, r) ∈ regrD)
    (hnd : (regrD.map Prod.fst).Nodup)
    (s : Str) (hs : s ∈ regrSfx) (v : SVal) (hv : (out ++ s, v) ∈ regrWrites out r) :
    buildSummary init classD classHighD classLowD regrD replD hasFluor (out ++ s) = some v := by
  obtain ⟨d1, d2, rfl⟩ := List.append_of_mem hmem
  have hout2 : out ∉ d2.map Prod.fst := by
    rw [List.map_append, List.map_cons] at hnd
    exact (List.nodup_cons.mp (List.Nodup.of_append_right hnd)).1
  rw [buildSummary]
  apply applyWrites_block _ _
      (classD.flatMap (fun p => classWrites p.1 p.2) ++
        (classHighD.flatMap (fun p => classHighWrites p.1 p.2) ++
          (classLowD.flatMap (fun p => classLowWrites p.1 p.2) ++
            d1.flatMap (fun p => regrWrites p.1 p.2))))
      (regrWrites out r)
      (d2.flatMap (fun p => regrWrites p.1 p.2) ++
        (if hasFluor then replD.flatMap (fun p => replWrites p.1 p.2) else []))
      _ v ?_ hv (regrWrites_keys_nodup out r) ?_
  · simp [List.flatMap_append, List.append_assoc]
  · intro p hp
    rcases List.mem_append.mp hp with h2 | hrest
    · rcases List.mem_flatMap.mp h2 with ⟨q, hq, hpq⟩
      rcases regrWrites_key_shape hpq with ⟨s', hs', hkey⟩
      rw [hkey]
      rcases regrSfx_self_compat s hs s' hs' with he | hcf
      · subst he
        intro heq
        exact hout2 ((append_cancel_r heq) ▸ List.mem_map_of_mem Prod.fst hq)
      · exact key_ne_of_suffCompat_false ((suffCompat_symm s s') ▸ hcf) q.1 out
    · have hrest' : p ∈ replD.flatMap (fun p => replWrites p.1 p.2) := by
        cases hasFluor with
        | false =>
          rw [if_neg (by decide : ¬ (false = true))] at hrest
          exact absurd hrest (List.not_mem_nil p)
        | true => rwa [if_pos rfl] at hrest
      rcases List.mem_flatMap.mp hrest' with ⟨q, _, hpq⟩
      rcases replWrites_key_shape hpq with ⟨s', hs', hkey⟩
      rw [hkey]
      exact key_ne_of_suffCompat_false
        ((suffCompat_symm s s') ▸ regrSfx_compat_repl s hs s' hs') q.1 out

/-- Claim C6: for every output column with at least one recorded per-seed
metric value, the saved JSON summary maps `<output>_all_<Metric>` to the full
per-seed list, `<output>_avg_<Metric>` to its arithmetic mean and
`<output>_std_<Metric>` to its standard deviation (encoded by its variance,
see `SVal`), for each recorded metric family: Accuracy/Precision/Recall/F1
for classification outputs and R2/PearsonR/SpearmanR for regression
outputs. -/
theorem summary_metric_keys (init : SummMap) (classD classHighD : List (Str × ClassRec))
    (classLowD : List (Str × List ℚ)) (regrD : List (Str × RegrRec))
    (replD : List (Str × ReplRec)) (hasFluor : Bool)
    (hndc : (classD.map Prod.fst).Nodup) (hndr : (regrD.map Prod.fst).Nodup) :
    (∀ out r, (out, r) ∈ classD →
      ∃ m, savedSummary init classD classHighD classLowD regrD replD hasFluor = some m ∧
        m (out ++ strL "_all_Accuracy") = some (.vlist r.accL) ∧
        m (out ++ strL "_all_Precision") = some (.vlist r.precL) ∧
        m (out ++ strL "_all_Recall") = some (.vlist r.recL) ∧
        m (out ++ strL "_all_F1") = some (.vlist r.f1L) ∧
        m (out ++ strL "_avg_Accuracy") = some (.vnum (npAverage r.accL)) ∧
        m (out ++ strL "_avg_Precision") = some (.vnum (npAverage r.precL)) ∧
        m (out ++ strL "_avg_Recall") = some (.vnum (npAverage r.recL)) ∧
        m (out ++ strL "_avg_F1") = some (.vnum (npAverage r.f1L)) ∧
        m (out ++ strL "_std_Accuracy") = some (.vstd (npVarianceQ r.accL)) ∧
        m (out ++ strL "_std_Precision") = some (.vstd (npVarianceQ r.precL)) ∧
        m (out ++ strL "_std_Recall") = some (.vstd (npVarianceQ r.recL)) ∧
        m (out ++ strL "_std_F1") = some (.vstd (npVarianceQ r.f1L))) ∧
    (∀ out r, (out, r) ∈ regrD →
      ∃ m, savedSummary init classD classHighD classLowD regrD replD hasFluor = some m ∧
        m (out ++ strL "_all_R2") = some (.vlist r.r2L) ∧
        m (out ++ strL "_all_PearsonR") = some (.vlist r.pearsonL) ∧
        m (out ++ strL "_all_SpearmanR") = some (.vlist r.srhoL) ∧
        m (out ++ strL "_avg_R2") = some (.vnum (npAverage r.r2L)) ∧
        m (out ++ strL "_avg_PearsonR") = some (.vnum (npAverage r.pearsonL)) ∧
        m (out ++ strL "_avg_SpearmanR") = some (.vnum (npAverage r.srhoL)) ∧
        m (out ++ strL "_std_R2") = some (.vstd (npVarianceQ r.r2L)) ∧
        m (out ++ strL "_std_PearsonR") = some (.vstd (npVarianceQ r.pearsonL)) ∧
        m (out ++ strL "_std_SpearmanR") = some (.vstd (npVarianceQ r.srhoL))) := by
  constructor
  · intro out r hmem
    have hg : (!regrD.isEmpty || !classD.isEmpty) = true := by
      cases classD with
      | nil => cases hmem
      | cons x t => simp
    refine ⟨buildSummary init classD classHighD classLowD regrD replD hasFluor, ?_,
      ?_, ?_, ?_, ?_, ?_, ?_, ?_, ?_, ?_, ?_, ?_, ?_⟩
    · rw [savedSummary, if_pos hg]
    all_goals
      exact buildSummary_class_key init classD classHighD classLowD regrD replD hasFluor
        out r hmem hndc _ (by decide) _ (by simp [classWrites])
  · intro out r hmem
    have hg : (!regrD.isEmpty || !classD.isEmpty) = true := by
      cases regrD with
      | nil => cases hmem
      | cons x t => simp
    refine ⟨buildSummary init classD classHighD classLowD regrD replD hasFluor, ?_,
      ?_, ?_, ?_, ?_, ?_, ?_, ?_, ?_, ?_⟩
    · rw [savedSummary, if_pos hg]
    all_goals
      exact buildSummary_regr_key init classD classHighD classLowD regrD replD hasFluor
        out r hmem hndr _ (by decide) _ (by simp [regrWrites])

/-- Dictionaries used to witness the summary-key theorem. -/
def c6ClassD : List (Str × ClassRec) := [(strL "JURKAT", ⟨[1], [1], [1], [1]⟩)]

/-- Regression dictionary used to witness the summary-key theorem. -/
def c6RegrD : List (Str × RegrRec) := [(strL "K562", ⟨[2], [2], [2]⟩)]

/-- Initial summary map used to witness the summary-key theorem. -/
def c6Init : SummMap := fun _ => none

theorem summary_metric_keys_witness :
    (c6ClassD.map Prod.fst).Nodup ∧ (c6RegrD.map Prod.fst).Nodup ∧
      (∃ m, savedSummary c6Init c6ClassD [] [] c6RegrD [] false = some m ∧
        m (strL "JURKAT" ++ strL "_all_Accuracy") = some (.vlist [1])) ∧
      (∃ m, savedSummary c6Init c6ClassD [] [] c6RegrD [] false = some m ∧
        m (strL "K562" ++ strL "_avg_R2") = some (.vnum (npAverage [2]))) := by
  refine ⟨List.nodup_singleton _, List.nodup_singleton _, ?_, ?_⟩
  · obtain ⟨m, hm, h1, -, -, -, -, -, -, -, -, -, -⟩ :=
      (summary_metric_keys c6Init c6ClassD [] [] c6RegrD [] false
        (List.nodup_singleton _) (List.nodup_singleton _)).1
        (strL "JURKAT") ⟨[1], [1], [1], [1]⟩ (List.mem_singleton.mpr rfl)
    exact ⟨m, hm, h1⟩
  · obtain ⟨m, hm, -, -, -, h2, -, -, -, -, -⟩ :=
      (summary_metric_keys c6Init c6ClassD [] [] c6RegrD [] false
        (List.nodup_singleton _) (List.nodup_singleton _)).2
        (strL "K562") ⟨[2], [2], [2]⟩ (List.mem_singleton.mpr rfl)
    exact ⟨m, hm, h2⟩
